import Mathlib

/-!
Verification development for the `miconvert-ofd-to-pdf` converter.

The TypeScript sources are shallowly embedded:

* coordinates and matrix coefficients are rational numbers (`ℚ`); functions
  that use `Math.sqrt` / `Math.sign` / `Math.atan2` are embedded over `ℝ`;
* the structured-markup collaborator (`fast-xml-parser`) is modelled by the
  `JVal` tree and a `parseXml : String → JVal` parameter;
* the JavaScript `Number` string-to-number conversion is modelled by a
  `jsNum : String → ℚ` parameter (the model covers inputs whose numeric
  tokens denote finite numbers; `NaN` corner cases are outside `ℚ`);
* fallible external effects (PDF serialization, font embedding, per-object
  drawing) are modelled with `Except` / `Option` outcome parameters, and
  JavaScript `try ... catch` blocks become matches on those outcomes.

The file is organised as definitions first, then the theorems.
-/

namespace OfdToPdf

/-! # Definitions -/

/-! ## Core data model (src/types.ts) -/

/-- Physical box in millimeters: x y width height. -/
structure CTBox where
  x : ℚ
  y : ℚ
  width : ℚ
  height : ℚ
deriving Repr, DecidableEq

/-- 2D transformation matrix `[a b c d e f]`. -/
structure CTMatrix where
  a : ℚ
  b : ℚ
  c : ℚ
  d : ℚ
  e : ℚ
  f : ℚ
deriving Repr, DecidableEq

/-- OFD color: space-separated RGB channel string plus optional alpha. -/
structure CTColor where
  value : String
  alpha : Option ℚ := none
deriving Repr, DecidableEq

/-- Parsed path command (types.ts `PathCommand`): MoveTo, LineTo,
CubicBezier, QuadraticBezier, Arc, ClosePath. -/
inductive PathCmd where
  | M : ℚ → ℚ → PathCmd
  | L : ℚ → ℚ → PathCmd
  | B : ℚ → ℚ → ℚ → ℚ → ℚ → ℚ → PathCmd
  | Q : ℚ → ℚ → ℚ → ℚ → PathCmd
  | A : ℚ → ℚ → ℚ → Bool → Bool → ℚ → ℚ → PathCmd
  | C : PathCmd
deriving Repr, DecidableEq

/-- Line join style of a path object. -/
inductive JoinStyle where
  | miter | round | bevel
deriving Repr, DecidableEq

/-- Line cap style of a path object. -/
inductive CapStyle where
  | butt | round | square
deriving Repr, DecidableEq

/-- A positioned run of text (types.ts `TextCode`). -/
structure TextCode where
  x : Option ℚ := none
  y : Option ℚ := none
  deltaX : List ℚ := []
  deltaY : List ℚ := []
  text : String
deriving Repr, DecidableEq

/-- Font declaration (types.ts `OfdFont`). -/
structure OfdFont where
  id : String
  name : String
  familyName : Option String := none
  charset : Option String := none
  italic : Bool := false
  bold : Bool := false
  serif : Bool := false
  fixedWidth : Bool := false
  fontFile : Option String := none
deriving Repr, DecidableEq

/-- Text object (types.ts `OfdTextObject`). -/
structure OfdTextObject where
  id : String
  boundary : CTBox
  font : String
  size : ℚ
  fillColor : Option CTColor := none
  strokeColor : Option CTColor := none
  weight : Option ℚ := none
  italic : Bool := false
  ctm : Option CTMatrix := none
  textCodes : List TextCode := []
  alpha : Option ℚ := none
deriving Repr, DecidableEq

/-- Path object (types.ts `OfdPathObject`). -/
structure OfdPathObject where
  id : String
  boundary : CTBox
  abbreviatedData : String
  commands : List PathCmd
  fillColor : Option CTColor := none
  strokeColor : Option CTColor := none
  lineWidth : Option ℚ := none
  ctm : Option CTMatrix := none
  fill : Option Bool := none
  stroke : Option Bool := none
  dashPattern : Option (List ℚ) := none
  dashOffset : Option ℚ := none
  join : Option JoinStyle := none
  cap : Option CapStyle := none
  miterLimit : Option ℚ := none
  alpha : Option ℚ := none
deriving Repr, DecidableEq

/-- Image object (types.ts `OfdImageObject`). -/
structure OfdImageObject where
  id : String
  boundary : CTBox
  resourceId : String
  ctm : Option CTMatrix := none
  alpha : Option ℚ := none
deriving Repr, DecidableEq

/-- Tagged object variant (types.ts `OfdObject`). -/
inductive OfdObject where
  | text : OfdTextObject → OfdObject
  | path : OfdPathObject → OfdObject
  | image : OfdImageObject → OfdObject
deriving Repr, DecidableEq

/-- Page layer (types.ts `OfdLayer`). -/
structure OfdLayer where
  id : Option String := none
  type : Option String := none
  drawParamRef : Option String := none
  objects : List OfdObject
deriving Repr, DecidableEq

/-- Page (types.ts `OfdPage`). -/
structure OfdPage where
  id : String
  index : ℕ
  area : Option CTBox := none
  layers : List OfdLayer
  templateId : Option String := none
deriving Repr, DecidableEq

/-- Image resource (types.ts `OfdImageResource`). -/
structure OfdImageResource where
  id : String
  format : String
  path : String
deriving Repr, DecidableEq

/-- Parsed document (types.ts `OfdDocument`); the `Map`s are association
lists in JavaScript `Map` insertion order. -/
structure OfdDocument where
  physicalBox : CTBox
  fonts : List (String × OfdFont)
  images : List (String × OfdImageResource)
  pages : List OfdPage
  basePath : String
deriving Repr, DecidableEq

/-! ## Small JavaScript-semantics helpers

String operations are implemented over the character list so that concrete
archives and markup evaluate inside proofs.
-/

/-- Substring scan: does `pat` occur as a contiguous run in `l`? -/
def subOccurs (pat : List Char) : List Char → Bool
  | [] => pat.isEmpty
  | l@(_ :: rest) => pat.isPrefixOf l || subOccurs pat rest

/-- `String.prototype.includes`: `pat` occurs somewhere in `s`. -/
def strContains (s pat : String) : Bool :=
  subOccurs pat.data s.data

/-- `String.prototype.endsWith`. -/
def strEndsWith (s suffix : String) : Bool :=
  List.isSuffixOf suffix.data s.data

/-- `String.prototype.startsWith`. -/
def strStartsWith (s pre : String) : Bool :=
  List.isPrefixOf pre.data s.data

/-- `s.trim()`: strip whitespace from both ends. -/
def jsTrim (s : String) : String :=
  String.mk (((s.data.dropWhile Char.isWhitespace).reverse.dropWhile
    Char.isWhitespace).reverse)

/-- `s.toLowerCase()` (ASCII; CJK characters have no case). -/
def jsToLower (s : String) : String :=
  String.mk (s.data.map Char.toLower)

/-- `s.toUpperCase()` (ASCII). -/
def jsToUpper (s : String) : String :=
  String.mk (s.data.map Char.toUpper)

/-- `s.replace(/\\/g, '/')`: a single-character global replace is a
character-wise map. -/
def normalizeSlashes (s : String) : String :=
  String.mk (s.data.map (fun c => if c = '\\' then '/' else c))

/-- `s.slice(1)`. -/
def strDrop1 (s : String) : String :=
  String.mk (s.data.drop 1)

/-- Word accumulator for the whitespace split. -/
def splitWsAux : List Char → List Char → List String
  | [], acc => if acc.isEmpty then [] else [String.mk acc.reverse]
  | c :: rest, acc =>
    if c.isWhitespace then
      if acc.isEmpty then splitWsAux rest []
      else String.mk acc.reverse :: splitWsAux rest []
    else splitWsAux rest (c :: acc)

/-- `s.split(/\s+/)` on a trimmed string: maximal whitespace-separated
tokens, no empty tokens. -/
def splitWs (s : String) : List String :=
  splitWsAux s.data []

/-- Accumulator for the single-character split. -/
def splitCharAux (sep : Char) : List Char → List Char → List String
  | [], acc => [String.mk acc.reverse]
  | c :: rest, acc =>
    if c = sep then String.mk acc.reverse :: splitCharAux sep rest []
    else splitCharAux sep rest (c :: acc)

/-- `s.split(sep)` for a single-character separator. -/
def splitChar (sep : Char) (s : String) : List String :=
  splitCharAux sep s.data []

/-- Join a list of segments with a separator (`Array.prototype.join`). -/
def joinWith (sep : String) : List String → String
  | [] => ""
  | [x] => x
  | x :: rest => x ++ sep ++ joinWith sep rest

/-- JavaScript truthiness filter for an optional string: `undefined`/`null`
and the empty string are falsy. -/
def jsTruthyStr : Option String → Option String
  | some "" => none
  | x => x

/-- JavaScript truthiness of an optional boolean field (`undefined` is
falsy). -/
def jsTruthyB : Option Bool → Bool
  | some true => true
  | _ => false

/-- The `x !== false` test on an optional boolean field (`undefined` passes). -/
def jsNotFalse : Option Bool → Bool
  | some false => false
  | _ => true

/-! ## Geometry kernel (path-renderer.ts, text-renderer.ts) -/

/--
`ctmScaleLineWidth` from path-renderer.ts:
`sx = Math.sign(a) * Math.sqrt(a*a + c*c); return lineWidth * Math.abs(sx)`.
`Math.sign`/`Math.sqrt` are embedded as `Real.sign`/`Real.sqrt`
(`Real.sign 0 = 0`, matching `Math.sign(0) = 0`).
-/
noncomputable def ctmScaleLineWidth (lineWidth : ℝ) (ctm : CTMatrix) : ℝ :=
  let a : ℝ := (ctm.a : ℝ)
  let c : ℝ := (ctm.c : ℝ)
  let sx : ℝ := Real.sign a * Real.sqrt (a * a + c * c)
  lineWidth * |sx|

/--
`applyCTM` from text-renderer.ts (same formula as `ctmTransformPoint` in
path-renderer.ts): `x' = a*x + c*y + e`, `y' = b*x + d*y + f`.
-/
def applyCTM (ctm : CTMatrix) (x y : ℚ) : ℚ × ℚ :=
  (ctm.a * x + ctm.c * y + ctm.e, ctm.b * x + ctm.d * y + ctm.f)

/--
The rotation test used by `applyCTMToDelta`: the code computes
`angle = Math.atan2(-ctm.b, ctm.d)` and branches on `angle === 0`.
`atan2(y, x) = 0` holds exactly when `y = 0` and `x ≥ 0` (including
`atan2(0, 0) = 0` and the JavaScript `-0 === 0` comparison), so the test is
embedded as this decidable proposition; `rotationZero_iff_arg` below grounds
it in the mathematical `arg`/`atan2`.
-/
def ctmRotationZero (ctm : CTMatrix) : Prop := ctm.b = 0 ∧ 0 ≤ ctm.d

instance (ctm : CTMatrix) : Decidable (ctmRotationZero ctm) := by
  unfold ctmRotationZero; infer_instance

/-- The derived rotation `Math.atan2(-ctm.b, ctm.d)` of a transform, where
`atan2(y, x)` is `Complex.arg ⟨x, y⟩`. -/
noncomputable def ctmDerivedRotation (ctm : CTMatrix) : ℝ :=
  Complex.arg ⟨(ctm.d : ℝ), -(ctm.b : ℝ)⟩

/--
`applyCTMToDelta` from text-renderer.ts: non-zero deltas are transformed
like points when the derived rotation is zero, otherwise passed through.
-/
def applyCTMToDelta (dx dy : ℚ) (ctm : CTMatrix) : ℚ × ℚ :=
  let rdx : ℚ := if dx ≠ 0 ∧ ctmRotationZero ctm then (applyCTM ctm dx 0).1 else dx
  let rdy : ℚ := if dy ≠ 0 ∧ ctmRotationZero ctm then (applyCTM ctm 0 dy).2 else dy
  (rdx, rdy)

/-! ## Quadratic-to-cubic Bézier promotion (path-renderer.ts, case Q) -/

/--
Control points of the cubic Bézier promoted from a quadratic one, from the
`case Q` branch of `renderPathObject`:
`cp1 = p0 + (2/3)(p1 - p0)`, `cp2 = p2 + (2/3)(p1 - p2)`.
Returns `(cp1, cp2)`.
-/
def quadToCubic (p0 p1 p2 : ℚ × ℚ) : (ℚ × ℚ) × (ℚ × ℚ) :=
  ((p0.1 + (2 / 3) * (p1.1 - p0.1), p0.2 + (2 / 3) * (p1.2 - p0.2)),
   (p2.1 + (2 / 3) * (p1.1 - p2.1), p2.2 + (2 / 3) * (p1.2 - p2.2)))

/-- Quadratic Bézier point at parameter `t`. -/
def quadBezier (p0 p1 p2 : ℚ × ℚ) (t : ℚ) : ℚ × ℚ :=
  ((1 - t) ^ 2 * p0.1 + 2 * (1 - t) * t * p1.1 + t ^ 2 * p2.1,
   (1 - t) ^ 2 * p0.2 + 2 * (1 - t) * t * p1.2 + t ^ 2 * p2.2)

/-- Cubic Bézier point at parameter `t`. -/
def cubicBezier (p0 c1 c2 p3 : ℚ × ℚ) (t : ℚ) : ℚ × ℚ :=
  ((1 - t) ^ 3 * p0.1 + 3 * (1 - t) ^ 2 * t * c1.1 + 3 * (1 - t) * t ^ 2 * c2.1 + t ^ 3 * p3.1,
   (1 - t) ^ 3 * p0.2 + 3 * (1 - t) ^ 2 * t * c1.2 + 3 * (1 - t) * t ^ 2 * c2.2 + t ^ 3 * p3.2)

/-! ## Delta-spacing expansion (page-parser.ts, text-renderer.ts) -/

/-- Number of iterations of the JavaScript loop `for (j = 0; j < count; j++)`
for a (finite) numeric bound `count`. -/
def jsLoopCount (count : ℚ) : ℕ := ⌈count⌉.toNat

/--
`parseDeltaValues` from page-parser.ts, applied to the whitespace-split token
list: a `"g" count value` group pushes `count` repetitions of `value`; any
other token is pushed as a literal number.  `jsNum` models the JavaScript
`Number` conversion.  A truncated trailing group (`"g"` with fewer than two
following tokens) makes `Number(undefined)` produce `NaN` in JavaScript,
which has no `ℚ` counterpart; the model returns no further entries there, as
the JavaScript loop also consumes the remaining tokens and stops.
-/
def parseDeltaValues (jsNum : String → ℚ) : List String → List ℚ
  | [] => []
  | t :: rest =>
    if t = "g" then
      match rest with
      | c :: v :: rest2 =>
          List.replicate (jsLoopCount (jsNum c)) (jsNum v) ++ parseDeltaValues jsNum rest2
      | _ => []
    else jsNum t :: parseDeltaValues jsNum rest

/-- The `deltaStr` entry point of `parseDeltaValues`: a falsy (absent or
empty) attribute yields no deltas; otherwise the trimmed string is
whitespace-split and expanded. -/
def parseDeltaStr (jsNum : String → ℚ) (deltaStr : Option String) : List ℚ :=
  match jsTruthyStr deltaStr with
  | none => []
  | some s => parseDeltaValues jsNum (splitWs (jsTrim s))

/--
Per-glyph advance selection from text-renderer.ts
(`dxIndex = Math.min(i, deltaX.length - 1); rawDx = deltaX[dxIndex] ?? 0`):
glyph `i` consumes entry `i` of the expanded sequence, with the final entry
reused once the sequence runs short.
-/
def deltaAt (deltas : List ℚ) (i : ℕ) : ℚ :=
  deltas.getD (min i (deltas.length - 1)) 0

/-- The JavaScript `Number` conversion restricted to strings of decimal
digits, used to instantiate `jsNum` on concrete inputs. -/
def decNum (s : String) : ℚ :=
  ((s.data.foldl (fun n c => n * 10 + (c.toNat - 48)) 0 : ℕ) : ℚ)

/-! ## Path painting (path-renderer.ts) -/

/-- Normalized RGB color components, range 0–1. -/
structure RGB where
  r : ℚ
  g : ℚ
  b : ℚ
deriving Repr, DecidableEq

/--
`parseColorComponents` from path-renderer.ts: a missing color (or one whose
value string is falsy) yields black; otherwise the value string is trimmed,
whitespace-split, converted with `Number` and divided by 255, missing
channels defaulting to 0.
-/
def parseColorComponents (jsNum : String → ℚ) (color : Option CTColor) : RGB :=
  match color with
  | none => ⟨0, 0, 0⟩
  | some col =>
    if col.value = "" then ⟨0, 0, 0⟩
    else
      let parts := (splitWs (jsTrim col.value)).map jsNum
      ⟨parts.getD 0 0 / 255, parts.getD 1 0 / 255, parts.getD 2 0 / 255⟩

/-- The painting operator(s) a path emits. -/
inductive PaintOp where
  | fillAndStroke
  | fillOnly
  | strokeOnly
deriving Repr, DecidableEq

/--
The paint-operator selection at the end of `renderPathObject`
(path-renderer.ts):
`if (doFill && doStroke !== false && strokeColor) fillAndStroke()
 else if (doFill) fill() else if (doStroke !== false) stroke()`.
-/
def pathPaintOps (doFill strokeEnabled : Bool) (strokeColor : Option CTColor) :
    List PaintOp :=
  if doFill && strokeEnabled && strokeColor.isSome then [.fillAndStroke]
  else if doFill then [.fillOnly]
  else if strokeEnabled then [.strokeOnly]
  else []

/-- The painting operators `renderPathObject` emits for a path object:
nothing at all when the command list is empty (early return), otherwise the
selection above with `doFill` the truthiness of the `fill` flag and
`doStroke !== false` on the `stroke` flag. -/
def renderPathObjectPaintOps (o : OfdPathObject) : List PaintOp :=
  if o.commands = [] then []
  else pathPaintOps (jsTruthyB o.fill) (jsNotFalse o.stroke) o.strokeColor

/-! ## Structured-markup tree (the fast-xml-parser collaborator) -/

/--
The value space of the parsed-markup collaborator: a JavaScript object tree
where child elements are addressable by (possibly namespace-prefixed) tag
name, repeated elements are arrays, attributes are `"@_"`-prefixed string
fields and text content is the `"#text"` field.
-/
inductive JVal where
  | str : String → JVal
  | obj : List (String × JVal) → JVal
  | arr : List JVal → JVal

/-- Lookup of a field by name in a JavaScript object's field list. -/
def jGetFields : List (String × JVal) → String → Option JVal
  | [], _ => none
  | (k, v) :: rest, name => if k = name then some v else jGetFields rest name

/-- Field access `node[name]` on a parsed-markup value. -/
def jGet (j : JVal) (name : String) : Option JVal :=
  match j with
  | .obj fields => jGetFields fields name
  | _ => none

/-- `getXmlVal`/`getVal` from ofd-xml.ts and page-parser.ts: try each name,
plain then `ofd:`-prefixed, returning the first present field. -/
def getXmlVal (node : Option JVal) (names : List String) : Option JVal :=
  match node with
  | none => none
  | some j =>
    match names with
    | [] => none
    | n :: rest =>
      match jGet j n with
      | some v => some v
      | none =>
        match jGet j ("ofd:" ++ n) with
        | some v => some v
        | none => getXmlVal (some j) rest

/-- `ensureArray` from ofd-xml.ts / page-parser.ts. -/
def ensureArray (val : Option JVal) : List JVal :=
  match val with
  | none => []
  | some (.arr xs) => xs
  | some v => [v]

/-- The `typeof x === 'string' ? x : x?.['#text']` extraction pattern. -/
def jText (v : JVal) : Option String :=
  match v with
  | .str s => some s
  | _ =>
    match jGet v "#text" with
    | some (.str s) => some s
    | _ => none

/-- Attribute access: `node?.['@_name']` with a string value. -/
def jAttr (v : JVal) (name : String) : Option String :=
  match jGet v name with
  | some (.str s) => some s
  | _ => none

/-- JavaScript truthiness of an optional markup value: `undefined` and the
empty string are falsy, objects and arrays are truthy. -/
def jvalTruthy : Option JVal → Option JVal
  | some (.str "") => none
  | x => x

/-! ## Archive access (src/parser/unzip.ts)

The extracted OFD archive is a path → content map in insertion order; for
the structural parser only text contents matter, so entries carry decoded
strings.
-/

/-- The extracted archive: normalized path → decoded text content. -/
abbrev Archive : Type := List (String × String)

/-- `readTextFile` from unzip.ts: normalize backslashes, direct lookup, then
a case-insensitive fallback scan in insertion order. -/
def readTextFile (archive : Archive) (filePath : String) : Option String :=
  let normalized := normalizeSlashes filePath
  match (List.find? (fun p => p.1 = normalized) archive) with
  | some p => some p.2
  | none =>
    let lowerTarget := jsToLower normalized
    (List.find? (fun p => jsToLower p.1 = lowerTarget) archive).map Prod.snd

/-- `findOfdXml` from ofd-xml.ts: try the conventional entry-descriptor
locations (skipping falsy, i.e. empty, contents), then scan the archive for
any path ending in `ofd.xml` that does not mention `document`. -/
def findOfdXml (archive : Archive) : Option String :=
  match (["OFD.xml", "ofd.xml", "OFD/OFD.xml"].filterMap
      (fun c => jsTruthyStr (readTextFile archive c))).head? with
  | some content => some content
  | none =>
    match List.find? (fun p =>
        strEndsWith (jsToLower p.1) "ofd.xml" && !(strContains (jsToLower p.1) "document")) archive with
    | some p => readTextFile archive p.1
    | none => none

/-- Directory part of a path: everything before the last slash
(`basePath.substring(0, basePath.lastIndexOf('/'))`). -/
def dirnameOf (p : String) : String :=
  joinWith "/" ((splitChar '/' p).dropLast)

/-- `resolvePath` from ofd-xml.ts: resolve a reference relative to the
directory of `basePath`, collapsing `.`/`..`/empty segments. -/
def resolvePath (basePath relativePath : String) : String :=
  if strStartsWith relativePath "/" then strDrop1 relativePath
  else
    let baseDir := if strContains basePath "/" then dirnameOf basePath else ""
    let parts := splitChar '/' baseDir ++ splitChar '/' relativePath
    let resolved := parts.foldl (fun acc part =>
      if part = ".." then acc.dropLast
      else if part = "." ∨ part = "" then acc
      else acc ++ [part]) ([] : List String)
    joinWith "/" resolved

/-! ## Attribute-level parsers (ofd-xml.ts, page-parser.ts) -/

/-- `parseBox` from ofd-xml.ts: parse `"x y width height"`, with an A4
default for a falsy input and per-component defaults. -/
def parseBox (jsNum : String → ℚ) (boxStr : Option String) : CTBox :=
  match jsTruthyStr boxStr with
  | none => ⟨0, 0, 210, 297⟩
  | some s =>
    let parts := (splitWs (jsTrim s)).map jsNum
    ⟨parts.getD 0 0, parts.getD 1 0, parts.getD 2 210, parts.getD 3 297⟩

/-- `parseCTM` from page-parser.ts: six whitespace-separated coefficients,
`none` if fewer than six. -/
def parseCTM (jsNum : String → ℚ) (ctmStr : Option String) : Option CTMatrix :=
  match jsTruthyStr ctmStr with
  | none => none
  | some s =>
    let parts := (splitWs (jsTrim s)).map jsNum
    if parts.length < 6 then none
    else some ⟨parts.getD 0 0, parts.getD 1 0, parts.getD 2 0,
               parts.getD 3 0, parts.getD 4 0, parts.getD 5 0⟩

/-- `parseColor` from page-parser.ts: the color string comes from the
`Value` attribute or the element text; the alpha attribute is converted
when truthy. -/
def parseColor (jsNum : String → ℚ) (node : Option JVal) : Option CTColor :=
  match node with
  | none => none
  | some n =>
    let colorVal : Option String :=
      match jAttr n "@_Value" with
      | some s => some s
      | none =>
        match jGet n "#text" with
        | some (.str s) => some s
        | _ => none
    match colorVal with
    | some s =>
      some { value := s,
             alpha := (jsTruthyStr (jAttr n "@_Alpha")).map jsNum }
    | none => none

/-- `parseColorStr` from page-parser.ts. -/
def parseColorStr (str : Option String) : Option CTColor :=
  match jsTruthyStr str with
  | none => none
  | some s => some { value := s }

/-- The `node ? parseColor(node) ?? parseColorStr(node?.['@_Value']) : undefined`
pattern used for fill and stroke colors of text and path objects. -/
def parseColorField (jsNum : String → ℚ) (node : Option JVal) : Option CTColor :=
  match jvalTruthy node with
  | none => none
  | some n =>
    match parseColor jsNum (some n) with
    | some c => some c
    | none => parseColorStr (jAttr n "@_Value")

/-- `parseTextCodes` from page-parser.ts: every `TextCode` child with truthy
text content becomes a positioned run with expanded delta sequences. -/
def parseTextCodes (jsNum : String → ℚ) (objNode : JVal) : List TextCode :=
  (ensureArray (getXmlVal (some objNode) ["TextCode"])).filterMap (fun tc =>
    match jsTruthyStr (some ((jText tc).getD "")) with
    | none => none
    | some s =>
      some { x := (jAttr tc "@_X").map jsNum
             y := (jAttr tc "@_Y").map jsNum
             deltaX := parseDeltaStr jsNum (jAttr tc "@_DeltaX")
             deltaY := parseDeltaStr jsNum (jAttr tc "@_DeltaY")
             text := s })

/-- `parseTextObject` from page-parser.ts. -/
def parseTextObject (jsNum : String → ℚ) (obj : JVal) : OfdTextObject :=
  { id := (jAttr obj "@_ID").getD ""
    boundary := parseBox jsNum (jAttr obj "@_Boundary")
    font := (jAttr obj "@_Font").getD ""
    size := match jAttr obj "@_Size" with
      | some s => jsNum s
      | none => 10
    fillColor := parseColorField jsNum (getXmlVal (some obj) ["FillColor"])
    strokeColor := parseColorField jsNum (getXmlVal (some obj) ["StrokeColor"])
    weight := (jsTruthyStr (jAttr obj "@_Weight")).map jsNum
    italic := jAttr obj "@_Italic" = some "true"
    ctm := parseCTM jsNum (jAttr obj "@_CTM")
    textCodes := parseTextCodes jsNum obj
    alpha := (jAttr obj "@_Alpha").map jsNum }

/--
The path-data tokenizer loop of `parseAbbreviatedData` (page-parser.ts):
each command letter consumes its fixed operand count (`M`/`L`: 2, `B`: 6,
`Q`: 4, `A`: 7, `C`/`S`: 0), unknown tokens are skipped.  A command whose
trailing operands are missing gets `NaN` coordinates in JavaScript
(`Number(undefined)`), which `ℚ` cannot represent; the model reads such
operands as `jsNum ""`.
-/
def parseAbbrevTokens (jsNum : String → ℚ) : List String → List PathCmd
  | [] => []
  | cmd :: rest =>
    if cmd = "M" then
      PathCmd.M (jsNum (rest.getD 0 "")) (jsNum (rest.getD 1 ""))
        :: parseAbbrevTokens jsNum (rest.drop 2)
    else if cmd = "L" then
      PathCmd.L (jsNum (rest.getD 0 "")) (jsNum (rest.getD 1 ""))
        :: parseAbbrevTokens jsNum (rest.drop 2)
    else if cmd = "B" then
      PathCmd.B (jsNum (rest.getD 0 "")) (jsNum (rest.getD 1 ""))
          (jsNum (rest.getD 2 "")) (jsNum (rest.getD 3 ""))
          (jsNum (rest.getD 4 "")) (jsNum (rest.getD 5 ""))
        :: parseAbbrevTokens jsNum (rest.drop 6)
    else if cmd = "Q" then
      PathCmd.Q (jsNum (rest.getD 0 "")) (jsNum (rest.getD 1 ""))
          (jsNum (rest.getD 2 "")) (jsNum (rest.getD 3 ""))
        :: parseAbbrevTokens jsNum (rest.drop 4)
    else if cmd = "A" then
      PathCmd.A (jsNum (rest.getD 0 "")) (jsNum (rest.getD 1 ""))
          (jsNum (rest.getD 2 ""))
          (rest.getD 3 "" = "1") (rest.getD 4 "" = "1")
          (jsNum (rest.getD 5 "")) (jsNum (rest.getD 6 ""))
        :: parseAbbrevTokens jsNum (rest.drop 7)
    else if cmd = "C" ∨ cmd = "S" then
      PathCmd.C :: parseAbbrevTokens jsNum rest
    else
      parseAbbrevTokens jsNum rest
termination_by l => l.length
decreasing_by
  all_goals simp_wf
  all_goals omega

/-- `parseAbbreviatedData` from page-parser.ts: falsy data yields no
commands, otherwise the trimmed, whitespace-split tokens are interpreted. -/
def parseAbbreviatedData (jsNum : String → ℚ) (data : String) : List PathCmd :=
  if data = "" then []
  else parseAbbrevTokens jsNum (splitWs (jsTrim data))

/-- `parsePathObject` from page-parser.ts. -/
def parsePathObject (jsNum : String → ℚ) (obj : JVal) : OfdPathObject :=
  let abbreviatedData :=
    ((getXmlVal (some obj) ["AbbreviatedData"]).bind jText).getD ""
  let fillColorNode := getXmlVal (some obj) ["FillColor"]
  let strokeColorNode := getXmlVal (some obj) ["StrokeColor"]
  let hasFill := decide (jAttr obj "@_Fill" ≠ some "false") && fillColorNode.isSome
  let hasStroke := decide (jAttr obj "@_Stroke" ≠ some "false")
  { id := (jAttr obj "@_ID").getD ""
    boundary := parseBox jsNum (jAttr obj "@_Boundary")
    abbreviatedData := abbreviatedData
    commands := parseAbbreviatedData jsNum abbreviatedData
    fillColor := parseColorField jsNum fillColorNode
    strokeColor := parseColorField jsNum strokeColorNode
    lineWidth := (jsTruthyStr (jAttr obj "@_LineWidth")).map jsNum
    ctm := parseCTM jsNum (jAttr obj "@_CTM")
    fill := some hasFill
    stroke := some hasStroke
    dashPattern := (jsTruthyStr (jAttr obj "@_DashPattern")).map
      (fun s => (splitWs (jsTrim s)).map jsNum)
    dashOffset := (jAttr obj "@_DashOffset").map jsNum
    join := match jAttr obj "@_Join" with
      | some "Round" => some .round
      | some "Bevel" => some .bevel
      | some "Miter" => some .miter
      | _ => none
    cap := match jAttr obj "@_Cap" with
      | some "Round" => some .round
      | some "Square" => some .square
      | some "Butt" => some .butt
      | _ => none
    miterLimit := (jAttr obj "@_MiterLimit").map jsNum
    alpha := (jAttr obj "@_Alpha").map jsNum }

/-- `parseImageObject` from page-parser.ts. -/
def parseImageObject (jsNum : String → ℚ) (obj : JVal) : OfdImageObject :=
  { id := (jAttr obj "@_ID").getD ""
    boundary := parseBox jsNum (jAttr obj "@_Boundary")
    resourceId := (jAttr obj "@_ResourceID").getD ""
    ctm := parseCTM jsNum (jAttr obj "@_CTM")
    alpha := (jAttr obj "@_Alpha").map jsNum }

/-! ## Layer and page parsing (page-parser.ts)

`parseLayer` recurses into nested `PageBlock` containers; the recursion is
on the size of the markup value, justified by the lemmas below.
-/

/-- Field lookup returns a structurally smaller markup value. -/
theorem sizeOf_lt_of_jGetFields {fields : List (String × JVal)} {name : String}
    {v : JVal} (h : jGetFields fields name = some v) :
    sizeOf v < 1 + sizeOf fields := by
  induction fields with
  | nil => simp [jGetFields] at h
  | cons p rest ih =>
    obtain ⟨k, w⟩ := p
    by_cases hk : k = name
    · simp only [jGetFields, hk, if_pos rfl] at h
      cases h
      simp only [List.cons.sizeOf_spec, Prod.mk.sizeOf_spec]
      omega
    · simp only [jGetFields, if_neg hk] at h
      have := ih h
      simp only [List.cons.sizeOf_spec, Prod.mk.sizeOf_spec]
      omega

/-- `jGet` returns a structurally smaller markup value. -/
theorem sizeOf_lt_of_jGet {j : JVal} {name : String} {v : JVal}
    (h : jGet j name = some v) : sizeOf v < sizeOf j := by
  cases j with
  | str s => simp [jGet] at h
  | arr xs => simp [jGet] at h
  | obj fields =>
    simp only [jGet] at h
    have := sizeOf_lt_of_jGetFields h
    simp only [JVal.obj.sizeOf_spec]
    omega

/-- `getXmlVal` returns a structurally smaller markup value. -/
theorem sizeOf_lt_of_getXmlVal {j : JVal} {names : List String} {v : JVal}
    (h : getXmlVal (some j) names = some v) : sizeOf v < sizeOf j := by
  induction names with
  | nil => simp [getXmlVal] at h
  | cons n rest ih =>
    simp only [getXmlVal] at h
    cases hg : jGet j n with
    | some w =>
      rw [hg] at h
      cases h
      exact sizeOf_lt_of_jGet hg
    | none =>
      rw [hg] at h
      cases hg2 : jGet j ("ofd:" ++ n) with
      | some w =>
        rw [hg2] at h
        cases h
        exact sizeOf_lt_of_jGet hg2
      | none =>
        rw [hg2] at h
        exact ih h

/-- Members of `ensureArray (getXmlVal …)` are structurally smaller than the
node looked into. -/
theorem sizeOf_lt_of_mem_ensureArray_getXmlVal {j : JVal} {names : List String}
    {v : JVal} (hv : v ∈ ensureArray (getXmlVal (some j) names)) :
    sizeOf v < sizeOf j := by
  cases hx : getXmlVal (some j) names with
  | none => rw [hx] at hv; simp [ensureArray] at hv
  | some w =>
    have hw : sizeOf w < sizeOf j := sizeOf_lt_of_getXmlVal hx
    rw [hx] at hv
    cases w with
    | str s =>
      simp only [ensureArray, List.mem_singleton] at hv
      rw [hv]; exact hw
    | obj fields =>
      simp only [ensureArray, List.mem_singleton] at hv
      rw [hv]; exact hw
    | arr xs =>
      simp only [ensureArray] at hv
      have := List.sizeOf_lt_of_mem hv
      have hxs : sizeOf xs < sizeOf (JVal.arr xs) := by
        simp only [JVal.arr.sizeOf_spec]; omega
      omega

/-- `parseLayer` from page-parser.ts: collect the layer's `TextObject`s,
then `PathObject`s, then `ImageObject`s, then recursively flatten nested
`PageBlock` containers, appending their objects. -/
def parseLayer (jsNum : String → ℚ) (layerNode : JVal) : OfdLayer :=
  { id := jAttr layerNode "@_ID"
    type := jAttr layerNode "@_Type"
    drawParamRef := jAttr layerNode "@_DrawParam"
    objects :=
      (ensureArray (getXmlVal (some layerNode) ["TextObject"])).map
        (fun o => OfdObject.text (parseTextObject jsNum o))
      ++ (ensureArray (getXmlVal (some layerNode) ["PathObject"])).map
        (fun o => OfdObject.path (parsePathObject jsNum o))
      ++ (ensureArray (getXmlVal (some layerNode) ["ImageObject"])).map
        (fun o => OfdObject.image (parseImageObject jsNum o))
      ++ ((ensureArray (getXmlVal (some layerNode) ["PageBlock"])).attach.map
        (fun b => (parseLayer jsNum b.1).objects)).flatten }
termination_by sizeOf layerNode
decreasing_by
  exact sizeOf_lt_of_mem_ensureArray_getXmlVal b.2

/-- `parsePage` from page-parser.ts. -/
def parsePage (jsNum : String → ℚ) (pageXml : JVal) (pageId : String)
    (pageIndex : ℕ) (defaultArea : CTBox) : OfdPage :=
  let pageRoot0 := (getXmlVal (some pageXml) ["Page"]).getD pageXml
  let pageRoot := match pageRoot0 with
    | .arr xs => xs.headD pageXml
    | v => v
  let area := match jvalTruthy (getXmlVal (some pageRoot) ["Area"]) with
    | none => defaultArea
    | some areaNode =>
      match jvalTruthy (getXmlVal (some areaNode) ["PhysicalBox"]) with
      | none => defaultArea
      | some pb => parseBox jsNum (jText pb)
  let templateId := (getXmlVal (some pageRoot) ["Template"]).bind
    (fun t => jAttr t "@_TemplateID")
  let layersFromContent := match jvalTruthy (getXmlVal (some pageRoot) ["Content"]) with
    | none => []
    | some content =>
        (ensureArray (getXmlVal (some content) ["Layer"])).map (parseLayer jsNum)
  let layers := if layersFromContent.isEmpty then
      (ensureArray (getXmlVal (some pageRoot) ["Layer"])).map (parseLayer jsNum)
    else layersFromContent
  { id := pageId
    index := pageIndex
    area := some area
    layers := layers
    templateId := templateId }

/-! ## Resource manifests and the document parser (ofd-xml.ts) -/

/-- `Map.set` on an insertion-ordered association list: replace in place or
append. -/
def alistSet {α : Type} (m : List (String × α)) (k : String) (v : α) :
    List (String × α) :=
  if m.any (fun p => p.1 = k) then
    m.map (fun p => if p.1 = k then (k, v) else p)
  else m ++ [(k, v)]

/-- `parseResources` from ofd-xml.ts: collect font declarations and image
(`MultiMedia`) resources into the document tables. -/
def parseResources (resXml : JVal)
    (fonts : List (String × OfdFont)) (images : List (String × OfdImageResource))
    (basePath : String) :
    List (String × OfdFont) × List (String × OfdImageResource) :=
  let res := (getXmlVal (some resXml) ["Res"]).getD resXml
  let fonts1 := (ensureArray (getXmlVal (some res) ["Fonts"])).foldl
    (fun acc container =>
      (ensureArray (getXmlVal (some container) ["Font"])).foldl
        (fun acc2 font =>
          match jsTruthyStr (jAttr font "@_ID") with
          | none => acc2
          | some id =>
            let fontObj : OfdFont :=
              { id := id
                name := ((jAttr font "@_FontName").or (jAttr font "@_FamilyName")).getD "unknown"
                familyName := jAttr font "@_FamilyName"
                charset := jAttr font "@_Charset"
                italic := jAttr font "@_Italic" = some "true"
                bold := jAttr font "@_Bold" = some "true"
                serif := jAttr font "@_Serif" = some "true"
                fixedWidth := jAttr font "@_FixedWidth" = some "true"
                fontFile := match jvalTruthy (getXmlVal (some font) ["FontFile"]) with
                  | none => none
                  | some ff => some (basePath ++ "/" ++ ((jText ff).getD "[object Object]")) }
            alistSet acc2 id fontObj) acc) fonts
  let images1 := (ensureArray (getXmlVal (some res) ["MultiMedias"])).foldl
    (fun acc container =>
      (ensureArray (getXmlVal (some container) ["MultiMedia"])).foldl
        (fun acc2 mm =>
          match jsTruthyStr (jAttr mm "@_ID") with
          | none => acc2
          | some id =>
            let typeOk := match jAttr mm "@_Type" with
              | none => true
              | some t => t = "Image"
            if !typeOk then acc2
            else
              let filePath := ((getXmlVal (some mm) ["MediaFile"]).bind jText).getD ""
              if filePath = "" then acc2
              else
                let format := jsToUpper ((splitChar '.' filePath).getLastD "")
                alistSet acc2 id
                  { id := id, format := format, path := basePath ++ "/" ++ filePath })
        acc) images
  (fonts1, images1)

/-- The page loop of `parseOfdXml` (ofd-xml.ts, step 5): a reference without
a truthy `BaseLoc`, or whose resolved content file is missing or empty, is
skipped (`continue`); all others are parsed in order with their index. -/
def parsePagesLoop (parseXml : String → JVal) (jsNum : String → ℚ)
    (archive : Archive) (docPath : String) (physicalBox : CTBox)
    (pageRefs : List JVal) : List OfdPage :=
  pageRefs.enum.filterMap (fun iref =>
    let i := iref.1
    let pageRef := iref.2
    let pageId := (jAttr pageRef "@_ID").getD (toString i)
    match jsTruthyStr (jAttr pageRef "@_BaseLoc") with
    | none => none
    | some baseLoc =>
      let pagePath := resolvePath docPath baseLoc
      match jsTruthyStr (readTextFile archive pagePath) with
      | none => none
      | some pageContent =>
          some (parsePage jsNum (parseXml pageContent) pageId i physicalBox))

/--
`parseOfdXml` from ofd-xml.ts: locate the entry descriptor (`OFD.xml`),
follow `DocBody`/`DocRoot` to the document descriptor, read resource
manifests, then parse the page list.  Throwing is modelled by `Except.error`.
A `DocRoot` element that is neither a string nor has text content makes the
JavaScript code pass a non-string onward and crash with a `TypeError` inside
`readTextFile`; the model reports that situation as the `DocRoot path not
found` error (both are thrown errors aborting the parse).
-/
def parseOfdXml (parseXml : String → JVal) (jsNum : String → ℚ)
    (archive : Archive) : Except String OfdDocument :=
  match jsTruthyStr (findOfdXml archive) with
  | none => .error "Invalid OFD file: OFD.xml not found in archive"
  | some ofdXmlContent =>
    let ofdXml := parseXml ofdXmlContent
    let ofdRoot := (getXmlVal (some ofdXml) ["OFD"]).getD ofdXml
    match jvalTruthy (getXmlVal (some ofdRoot) ["DocBody"]) with
    | none => .error "Invalid OFD file: DocBody not found"
    | some body =>
      match jsTruthyStr ((getXmlVal (some body) ["DocRoot"]).bind jText) with
      | none => .error "Invalid OFD file: DocRoot path not found"
      | some docPath =>
        match jsTruthyStr (readTextFile archive docPath) with
        | none => .error ("Document XML not found at: " ++ docPath)
        | some docXmlContent =>
          let docXml := parseXml docXmlContent
          let document := (getXmlVal (some docXml) ["Document"]).getD docXml
          let basePath := if strContains docPath "/" then dirnameOf docPath else ""
          let commonData := getXmlVal (some document) ["CommonData"]
          let physicalBox := match jvalTruthy (getXmlVal commonData ["PageArea", "CT_PageArea"]) with
            | some pb => parseBox jsNum ((getXmlVal (some pb) ["PhysicalBox"]).bind jText)
            | none => ⟨0, 0, 210, 297⟩
          let st0 : List (String × OfdFont) × List (String × OfdImageResource) := ([], [])
          let st1 := match jvalTruthy (getXmlVal commonData ["PublicRes"]) with
            | none => st0
            | some ref =>
              match jText ref with
              | none => st0
              | some rel =>
                match jsTruthyStr (readTextFile archive (resolvePath docPath rel)) with
                | none => st0
                | some content =>
                    parseResources (parseXml content) st0.1 st0.2 basePath
          let st2 := match jvalTruthy (getXmlVal commonData ["DocumentRes"]) with
            | none => st1
            | some ref =>
              match jText ref with
              | none => st1
              | some rel =>
                match jsTruthyStr (readTextFile archive (resolvePath docPath rel)) with
                | none => st1
                | some content =>
                    parseResources (parseXml content) st1.1 st1.2 basePath
          let pageRefs := ensureArray (getXmlVal (getXmlVal (some document) ["Pages"]) ["Page"])
          let pages := parsePagesLoop parseXml jsNum archive docPath physicalBox pageRefs
          .ok { physicalBox := physicalBox
                fonts := st2.1
                images := st2.2
                pages := pages
                basePath := basePath }


/-! ## Per-object failure isolation (pdf-renderer.ts page loop)

Each object draw is dispatched by variant inside `try { ... } catch {}`;
the outcome of the external draw calls is a parameter, and the `catch`
discards a failure and continues with the next object.
-/

/-- The `switch (obj.type)` dispatch of the page loop. -/
def renderDispatch {e a : Type} (renderText : OfdTextObject → Except e (List a))
    (renderPath : OfdPathObject → Except e (List a))
    (renderImage : OfdImageObject → Except e (List a)) : OfdObject → Except e (List a)
  | .text t => renderText t
  | .path p => renderPath p
  | .image im => renderImage im

/-- The inner object loop: `try { dispatch } catch { /* skip */ }` — a
failing object contributes nothing and the loop continues. -/
def renderLayerObjects {e a : Type} (render : OfdObject → Except e (List a)) :
    List OfdObject → List a
  | [] => []
  | o :: rest =>
    (match render o with
     | .ok ops => ops
     | .error _ => []) ++ renderLayerObjects render rest

/-- The layer loop of one page. -/
def renderPageObjects {e a : Type} (render : OfdObject → Except e (List a))
    (page : OfdPage) : List a :=
  (page.layers.map (fun layer => renderLayerObjects render layer.objects)).flatten

/-- The page loop of `renderToPdf`: all pages, layers and objects in order,
with per-object failures swallowed. -/
def renderPagesOps {e a : Type} (render : OfdObject → Except e (List a))
    (pages : List OfdPage) : List a :=
  (pages.map (renderPageObjects render)).flatten

/-! ## Font resolution and the save fallback (pdf-renderer.ts) -/

/-- The built-in standard PDF fonts used as the last resort. -/
inductive StandardFont where
  | Helvetica | HelveticaBold | HelveticaOblique | HelveticaBoldOblique
  | TimesRoman | TimesRomanBold | TimesRomanItalic | TimesRomanBoldItalic
  | Courier | CourierBold
deriving Repr, DecidableEq

/-- `mapToStandardFont` from pdf-renderer.ts: keyword and style mapping of a
font declaration onto the built-in set. -/
def mapToStandardFont (ofdFont : Option OfdFont) : StandardFont :=
  match ofdFont with
  | none => .Helvetica
  | some f =>
    let name := jsToLower f.name
    if strContains name "song" || strContains name "宋" || strContains name "simsun" then
      if f.bold then .TimesRomanBold else .TimesRoman
    else if strContains name "hei" || strContains name "黑" || strContains name "simhei" then
      if f.bold then .HelveticaBold else .Helvetica
    else if strContains name "kai" || strContains name "楷" || strContains name "kaiti" then
      if f.italic then .TimesRomanItalic else .TimesRoman
    else if strContains name "fang" || strContains name "仿" || strContains name "fangsong" then
      .TimesRoman
    else if strContains name "courier" || strContains name "mono" || f.fixedWidth then
      if f.bold then .CourierBold else .Courier
    else if strContains name "times" || strContains name "serif" || f.serif then
      if f.bold && f.italic then .TimesRomanBoldItalic
      else if f.bold then .TimesRomanBold
      else if f.italic then .TimesRomanItalic
      else .TimesRoman
    else if f.bold && f.italic then .HelveticaBoldOblique
    else if f.bold then .HelveticaBold
    else if f.italic then .HelveticaOblique
    else .Helvetica

/-- The CJK code-point test `/[\u4e00-\u9fff]/.test(name)`. -/
def hasCJKChar (s : String) : Bool :=
  s.data.any (fun ch => 0x4e00 ≤ ch.toNat && ch.toNat ≤ 0x9fff)

/-- The tier-2 CJK heuristic of the font loop in `renderToPdf`. -/
def isCJKFontName (name : String) : Bool :=
  let fontName := jsToLower name
  hasCJKChar name
    || strContains fontName "song" || strContains fontName "hei"
    || strContains fontName "kai" || strContains fontName "fang"
    || strContains fontName "sim" || strContains fontName "noto"
    || strContains fontName "pingfang" || strContains fontName "hiragino"
    || strContains fontName "source han" || strContains fontName "wenquanyi"
    || strContains fontName "stkaiti" || strContains fontName "stsong"
    || strContains fontName "stheiti" || strContains fontName "stfangsong"
    || strContains fontName "fz" || strContains fontName "adobe"

/-- `fontPath.toLowerCase().split('.').pop() || ''`. -/
def fontFileExt (p : String) : String :=
  (splitChar '.' (jsToLower p)).getLastD ""

/-- A font as resolved by the renderer: an embedded archive font (tier 1),
the pre-loaded CJK fallback (tier 2), or a built-in standard font (tier 3). -/
inductive ResolvedFont where
  | embedded : String → ResolvedFont
  | cjk : ResolvedFont
  | standard : StandardFont → ResolvedFont
deriving Repr, DecidableEq

/-- Outcomes of the external font-loading effects of `renderToPdf`. -/
structure FontEnv where
  /-- `registerFontkit` succeeded. -/
  hasFontkit : Bool
  /-- the CJK fallback font bytes were found and embedded. -/
  cjkFontLoaded : Bool
  /-- `readBinaryFile` found more than 100 bytes at the archive path. -/
  archiveFontOk : String → Bool
  /-- `pdfDoc.embedFont` succeeded on those bytes. -/
  embedOk : String → Bool
  /-- embedding the given standard font succeeded. -/
  stdEmbedOk : StandardFont → Bool

/-- The per-font resolution of `renderToPdf`: embedded archive font, else
CJK fallback, else standard font (with Helvetica if even that embed fails). -/
def resolveFontMain (env : FontEnv) (ofdFont : OfdFont) : ResolvedFont :=
  let tier1 : Option ResolvedFont :=
    match ofdFont.fontFile with
    | none => none
    | some fontPath =>
      let ext := fontFileExt fontPath
      if env.hasFontkit && (ext = "ttf" || ext = "otf" || ext = "woff")
          && env.archiveFontOk fontPath && env.embedOk fontPath then
        some (.embedded fontPath)
      else none
  match tier1 with
  | some f => f
  | none =>
    if env.cjkFontLoaded && isCJKFontName ofdFont.name then .cjk
    else if env.stdEmbedOk (mapToStandardFont (some ofdFont)) then
      .standard (mapToStandardFont (some ofdFont))
    else .standard .Helvetica

/-- The per-font resolution of `renderToPdfSafe`: only the standard-font
mapping, tiers 1 and 2 skipped entirely. -/
def resolveFontSafe (env : FontEnv) (ofdFont : OfdFont) : ResolvedFont :=
  if env.stdEmbedOk (mapToStandardFont (some ofdFont)) then
    .standard (mapToStandardFont (some ofdFont))
  else .standard .Helvetica

/-- The in-memory PDF model handed to the serializer: the resolved font
table and the drawing operations of all pages. -/
structure RenderedPdf (a : Type) where
  fonts : List (String × ResolvedFont)
  ops : List a
deriving Repr

/-- Assemble the in-memory PDF for a document with a given font resolution
and given per-object draw outcomes. -/
def buildRenderedPdf {e a : Type} (resolve : OfdFont → ResolvedFont)
    (render : OfdObject → Except e (List a)) (doc : OfdDocument) : RenderedPdf a :=
  { fonts := doc.fonts.map (fun p => (p.1, resolve p.2))
    ops := renderPagesOps render doc.pages }

/-- `renderToPdfSafe` from pdf-renderer.ts: rebuild the whole output using
only standard fonts and serialize; its own serialization outcome is
returned as is (a failure here is fatal). -/
def renderToPdfSafe {e a b : Type} (env : FontEnv)
    (render : OfdObject → Except e (List a))
    (save : RenderedPdf a → Except e b) (doc : OfdDocument) : Except e b :=
  save (buildRenderedPdf (resolveFontSafe env) render doc)

/--
`renderToPdf` from pdf-renderer.ts: build with the tiered font resolution,
then `try { return pdfDoc.save(); } catch { return renderToPdfSafe(...) }`.
`pdfDoc.save()` is an `async` method and its promise is returned without
`await`: an async call never throws synchronously, so this `catch` can only
intercept a synchronous exception that cannot occur here, and a save-time
failure is a promise rejection handed to the caller directly — the fallback
call inside the `catch` is unreachable on the save-failure path.  The model
therefore returns the save outcome as is.
-/
def renderToPdf {e a b : Type} (env : FontEnv)
    (renderMain : OfdObject → Except e (List a))
    (save : RenderedPdf a → Except e b) (doc : OfdDocument) : Except e b :=
  save (buildRenderedPdf (resolveFontMain env) renderMain doc)

/-- Discriminator for a thrown (error) outcome. -/
def isErr {e a : Type} : Except e a → Bool
  | .error _ => true
  | .ok _ => false



/-! ## Source-order model of a layer's markup (for the draw-order claim)

A layer's markup is an ordered list of child elements.  The structured-markup
collaborator presents it to `parseLayer` grouped by tag name (repeated
elements as one array per tag, §6), which loses the cross-tag encounter
order; `groupToJVal` models that grouping.
-/

/-- One child of a layer's source markup: a leaf object element (tag plus
its parsed value), or a nested container block with its own ordered
children. -/
inductive SrcChild where
  | el : String → JVal → SrcChild
  | block : String → List SrcChild → SrcChild

/-- The tag of a source child. -/
def srcTag : SrcChild → String
  | .el t _ => t
  | .block t _ => t

/-- Deduplicate keeping the first occurrence of each element. -/
def dedupKeepFirst (l : List String) : List String :=
  l.foldl (fun acc t => if t ∈ acc then acc else acc ++ [t]) []

mutual

/-- The markup value of one source child: a leaf keeps its value, a block
becomes its grouped children. -/
def srcChildVal (c : SrcChild) : JVal :=
  match c with
  | .el _ v => v
  | .block _ cs => groupToJVal cs
termination_by sizeOf c

/-- The parsed-markup view of an ordered child list: one array-valued field
per distinct tag, tags in first-occurrence order, each array holding that
tag's children in source order. -/
def groupToJVal (children : List SrcChild) : JVal :=
  JVal.obj ((dedupKeepFirst (children.map srcTag)).map (fun t =>
    (t, JVal.arr ((children.filter (fun c => srcTag c = t)).attach.map
      (fun c => srcChildVal c.1)))))
termination_by sizeOf children
decreasing_by
  have h1 := List.sizeOf_lt_of_mem (List.mem_of_mem_filter c.2)
  omega

end

/-- Object selector for text elements (either tag form `getVal` accepts). -/
def tsel (jsNum : String → ℚ) : SrcChild → Option OfdObject
  | .el t v =>
    if t = "TextObject" ∨ t = "ofd:TextObject" then
      some (OfdObject.text (parseTextObject jsNum v))
    else none
  | _ => none

/-- Object selector for path elements. -/
def psel (jsNum : String → ℚ) : SrcChild → Option OfdObject
  | .el t v =>
    if t = "PathObject" ∨ t = "ofd:PathObject" then
      some (OfdObject.path (parsePathObject jsNum v))
    else none
  | _ => none

/-- Object selector for image elements. -/
def isel (jsNum : String → ℚ) : SrcChild → Option OfdObject
  | .el t v =>
    if t = "ImageObject" ∨ t = "ofd:ImageObject" then
      some (OfdObject.image (parseImageObject jsNum v))
    else none
  | _ => none

mutual

/-- The kind-grouped traversal `parseLayer` performs, expressed on the
source children directly: texts first, then paths, then images, then the
flattened objects of nested blocks. -/
def parseLayerSrcObjects (jsNum : String → ℚ) (children : List SrcChild) :
    List OfdObject :=
  children.filterMap (tsel jsNum)
  ++ children.filterMap (psel jsNum)
  ++ children.filterMap (isel jsNum)
  ++ (children.attach.map (fun c => blockObjsOf jsNum c.1)).flatten
termination_by sizeOf children
decreasing_by
  have h1 := List.sizeOf_lt_of_mem c.2
  omega

/-- The block contribution of one source child to the grouped traversal. -/
def blockObjsOf (jsNum : String → ℚ) (c : SrcChild) : List OfdObject :=
  match c with
  | .block _ cs => parseLayerSrcObjects jsNum cs
  | _ => []
termination_by sizeOf c

end

/--
Modelled from the spec: "the builder recursively flattens nested container
blocks into the owning layer's object list preserving encounter order" and
"Object draw order within a layer is the list order" — the object list in
source encounter order, nested-block descendants in place.
-/
def specLayerObjects (jsNum : String → ℚ) : List SrcChild → List OfdObject
  | [] => []
  | SrcChild.el t v :: rest =>
    (if t = "TextObject" ∨ t = "ofd:TextObject" then
        [OfdObject.text (parseTextObject jsNum v)]
     else if t = "PathObject" ∨ t = "ofd:PathObject" then
        [OfdObject.path (parsePathObject jsNum v)]
     else if t = "ImageObject" ∨ t = "ofd:ImageObject" then
        [OfdObject.image (parseImageObject jsNum v)]
     else []) ++ specLayerObjects jsNum rest
  | SrcChild.block _ cs :: rest =>
    specLayerObjects jsNum cs ++ specLayerObjects jsNum rest
termination_by l => sizeOf l
decreasing_by
  all_goals simp only [List.cons.sizeOf_spec, SrcChild.block.sizeOf_spec,
    SrcChild.el.sizeOf_spec]
  all_goals omega

/-- Well-formed source children: object elements carry the namespaced OFD
tags and containers are `ofd:PageBlock` elements, recursively. -/
inductive ChildWF : SrcChild → Prop where
  | elText : ∀ v, ChildWF (.el "ofd:TextObject" v)
  | elPath : ∀ v, ChildWF (.el "ofd:PathObject" v)
  | elImage : ∀ v, ChildWF (.el "ofd:ImageObject" v)
  | blockWF : ∀ cs, (∀ c ∈ cs, ChildWF c) → ChildWF (.block "ofd:PageBlock" cs)

/-! ## Concrete fixtures used by witnesses and counterexamples -/

/-- Readability of one page reference: a truthy `BaseLoc` whose resolved
content file is present and non-empty. -/
def refReadable (archive : Archive) (docPath : String) (ref : JVal) : Bool :=
  match jsTruthyStr (jAttr ref "@_BaseLoc") with
  | none => false
  | some loc => (jsTruthyStr (readTextFile archive (resolvePath docPath loc))).isSome

/-- An archive with no entry descriptor at all. -/
def archNoEntry : Archive := [("foo.txt", "x")]

/-- Entry descriptor pointing at `Doc_0/Document.xml`. -/
def ofdEntryStub : JVal :=
  JVal.obj [("ofd:DocBody", JVal.obj [("ofd:DocRoot", JVal.str "Doc_0/Document.xml")])]

/-- Markup-parser stub for the C2 witness. -/
def pxStubC2 : String → JVal := fun s =>
  if s = "entry" then ofdEntryStub else JVal.obj []

/-- An archive whose entry descriptor exists but whose document descriptor
file is absent. -/
def archMissingDoc : Archive := [("OFD.xml", "entry")]

/-- A page whose markup carries no content layers. -/
def pageXmlStub : JVal := JVal.obj [("ofd:Page", JVal.arr [JVal.obj []])]

/-- Markup-parser stub for the C4 fixtures. -/
def pxStubC4 : String → JVal := fun s =>
  if s = "pagexml" then pageXmlStub else JVal.obj []

/-- Archive holding only the second page's content file. -/
def archC4 : Archive := [("Doc_0/Pages/Page_1/Content.xml", "pagexml")]

/-- Page reference whose content file is missing from `archC4`. -/
def refC4missing : JVal :=
  JVal.obj [("@_ID", JVal.str "1"), ("@_BaseLoc", JVal.str "Pages/Page_0/Content.xml")]

/-- Page reference whose content file is present in `archC4`. -/
def refC4present : JVal :=
  JVal.obj [("@_ID", JVal.str "2"), ("@_BaseLoc", JVal.str "Pages/Page_1/Content.xml")]


/-- A source layer whose path object precedes its text object. -/
def srcC5 : List SrcChild :=
  [SrcChild.el "ofd:PathObject" (JVal.obj []), SrcChild.el "ofd:TextObject" (JVal.obj [])]

/-! # Theorems -/

/-! ## Bridging lemma for the rotation test -/

/-- The embedded rotation test agrees with `atan2(-b, d) = 0`. -/
theorem rotationZero_iff_arg (ctm : CTMatrix) :
    ctmRotationZero ctm ↔ ctmDerivedRotation ctm = 0 := by
  unfold ctmDerivedRotation
  rw [Complex.arg_eq_zero_iff]
  unfold ctmRotationZero
  constructor
  · rintro ⟨hb, hd⟩
    constructor
    · simpa using hd
    · simp [hb]
  · rintro ⟨hre, him⟩
    constructor
    · have h1 : -((ctm.b : ℚ) : ℝ) = 0 := him
      have h2 : ((ctm.b : ℚ) : ℝ) = 0 := by linarith
      exact_mod_cast h2
    · have h3 : (0 : ℝ) ≤ ((ctm.d : ℚ) : ℝ) := hre
      exact_mod_cast h3

/-! ## Claim C6 — stroke-width transform scaling -/

/--
C6 (counterexample): the claim asserts that for width 1 and a transform with
a = 0, c = 3 the transformed width is 3.  The code computes
`w * |sign(a) * sqrt(a² + c²)|` and `Math.sign(0) = 0`, so the transformed
width is 0, not 3.
-/
theorem ctmScaleLineWidth_zero_a_counterexample :
    ctmScaleLineWidth 1 ⟨0, 0, 3, 1, 0, 0⟩ = 0 ∧
      ctmScaleLineWidth 1 ⟨0, 0, 3, 1, 0, 0⟩ ≠ 3 := by
  have h : ctmScaleLineWidth 1 ⟨0, 0, 3, 1, 0, 0⟩ = 0 := by
    simp [ctmScaleLineWidth, Real.sign_zero]
  exact ⟨h, by rw [h]; norm_num⟩

/--
C6 (amended): the transformed stroke width is `w·|sign(a)·sqrt(a²+c²)|`;
when `a > 0` this is `w·sqrt(a²+c²)` — in particular width 1 with a = 2,
c = 0 gives 2 — but whenever `a = 0` the factor `sign(a)` zeroes the result,
so width 1 with a = 0, c = 3 gives 0 rather than 3.
-/
theorem ctmScaleLineWidth_spec :
    (∀ (w : ℝ) (ctm : CTMatrix), 0 < ctm.a →
        ctmScaleLineWidth w ctm =
          w * Real.sqrt ((ctm.a : ℝ) * ctm.a + (ctm.c : ℝ) * ctm.c))
  ∧ ctmScaleLineWidth 1 ⟨2, 0, 0, 1, 0, 0⟩ = 2
  ∧ (∀ (w : ℝ) (ctm : CTMatrix), ctm.a = 0 → ctmScaleLineWidth w ctm = 0) := by
  refine ⟨?_, ?_, ?_⟩
  · intro w ctm ha
    have ha' : (0 : ℝ) < (ctm.a : ℝ) := by exact_mod_cast ha
    have hs : Real.sign ((ctm.a : ℝ)) = 1 := Real.sign_of_pos ha'
    simp only [ctmScaleLineWidth, hs, one_mul]
    rw [abs_of_nonneg (Real.sqrt_nonneg _)]
  · have h4 : ((2 : ℚ) : ℝ) * ((2 : ℚ) : ℝ) + ((0 : ℚ) : ℝ) * ((0 : ℚ) : ℝ) = 2 ^ 2 := by
      norm_num
    have hs : Real.sign (((2 : ℚ) : ℝ)) = 1 := Real.sign_of_pos (by norm_num)
    simp only [ctmScaleLineWidth, hs, one_mul]
    rw [h4, Real.sqrt_sq (by norm_num : (0:ℝ) ≤ 2),
      abs_of_nonneg (by norm_num : (0:ℝ) ≤ 2)]
  · intro w ctm ha
    simp [ctmScaleLineWidth, ha, Real.sign_zero]

/-- C6 amended, witnessed at concrete inputs: a = 2 > 0 scales width 1 to
`sqrt 4`, and a = 0 zeroes the width. -/
theorem ctmScaleLineWidth_spec_witness :
    ctmScaleLineWidth 1 ⟨2, 3, 1, 1, 0, 0⟩ =
        1 * Real.sqrt (((2 : ℚ) : ℝ) * ((2 : ℚ) : ℝ) + ((1 : ℚ) : ℝ) * ((1 : ℚ) : ℝ))
  ∧ ctmScaleLineWidth 5 ⟨0, 0, 7, 1, 0, 0⟩ = 0 := by
  constructor
  · exact ctmScaleLineWidth_spec.1 1 ⟨2, 3, 1, 1, 0, 0⟩ (by norm_num)
  · exact ctmScaleLineWidth_spec.2.2 5 ⟨0, 0, 7, 1, 0, 0⟩ rfl

/-! ## Claim C7 — rotation-aware delta transform -/

/--
C7: when the derived rotation `atan2(-b, d)` is non-zero, `applyCTMToDelta`
returns the deltas unchanged; when it is zero, a non-zero dx is replaced by
the x-coordinate of the point transform of (dx, 0) and a non-zero dy by the
y-coordinate of the point transform of (0, dy).
-/
theorem applyCTMToDelta_spec (ctm : CTMatrix) (dx dy : ℚ) :
    (ctmDerivedRotation ctm ≠ 0 →
        applyCTMToDelta dx dy ctm = (dx, dy))
  ∧ (ctmDerivedRotation ctm = 0 →
        (dx ≠ 0 → (applyCTMToDelta dx dy ctm).1 = (applyCTM ctm dx 0).1)
      ∧ (dy ≠ 0 → (applyCTMToDelta dx dy ctm).2 = (applyCTM ctm 0 dy).2)) := by
  constructor
  · intro h
    have h' : ¬ ctmRotationZero ctm := fun hz => h ((rotationZero_iff_arg ctm).mp hz)
    simp [applyCTMToDelta, h']
  · intro h
    have h' : ctmRotationZero ctm := (rotationZero_iff_arg ctm).mpr h
    constructor
    · intro hdx
      simp [applyCTMToDelta, h', hdx]
    · intro hdy
      simp [applyCTMToDelta, h', hdy]

/-- C7 witnessed: a shear with b = 1 has non-zero derived rotation and passes
deltas through; a scale-translate with b = 0, d = 1 transforms them. -/
theorem applyCTMToDelta_spec_witness :
    applyCTMToDelta 3 4 ⟨1, 1, 0, 1, 0, 0⟩ = (3, 4)
  ∧ (applyCTMToDelta 3 4 ⟨2, 0, 5, 1, 7, 9⟩).1 = (applyCTM ⟨2, 0, 5, 1, 7, 9⟩ 3 0).1
  ∧ (applyCTMToDelta 3 4 ⟨2, 0, 5, 1, 7, 9⟩).2 = (applyCTM ⟨2, 0, 5, 1, 7, 9⟩ 0 4).2 := by
  refine ⟨?_, ?_, ?_⟩
  · exact (applyCTMToDelta_spec ⟨1, 1, 0, 1, 0, 0⟩ 3 4).1
      (fun h => absurd ((rotationZero_iff_arg _).mpr h) (by decide))
  · exact ((applyCTMToDelta_spec ⟨2, 0, 5, 1, 7, 9⟩ 3 4).2
      ((rotationZero_iff_arg _).mp (by decide))).1 (by decide)
  · exact ((applyCTMToDelta_spec ⟨2, 0, 5, 1, 7, 9⟩ 3 4).2
      ((rotationZero_iff_arg _).mp (by decide))).2 (by decide)

/-! ## Claim C8 — quadratic-to-cubic promotion -/

/--
C8: the promotion computes cp1 = p0 + (2/3)(p1−p0) and cp2 = p2 + (2/3)(p1−p2);
the resulting cubic agrees with the quadratic Bézier at every parameter (so in
particular at t = 0.5 for P0 = (0,0), P1 = (1,2), P2 = (2,0), within 1e-9).
-/
theorem quadToCubic_spec :
    (∀ p0 p1 p2 : ℚ × ℚ,
        quadToCubic p0 p1 p2 =
          ((p0.1 + 2 / 3 * (p1.1 - p0.1), p0.2 + 2 / 3 * (p1.2 - p0.2)),
           (p2.1 + 2 / 3 * (p1.1 - p2.1), p2.2 + 2 / 3 * (p1.2 - p2.2))))
  ∧ (∀ (p0 p1 p2 : ℚ × ℚ) (t : ℚ),
        cubicBezier p0 (quadToCubic p0 p1 p2).1 (quadToCubic p0 p1 p2).2 p2 t =
          quadBezier p0 p1 p2 t)
  ∧ (|(cubicBezier (0, 0) (quadToCubic (0, 0) (1, 2) (2, 0)).1
          (quadToCubic (0, 0) (1, 2) (2, 0)).2 (2, 0) (1 / 2)).1 -
        (quadBezier (0, 0) (1, 2) (2, 0) (1 / 2)).1| ≤ 1 / 1000000000
    ∧ |(cubicBezier (0, 0) (quadToCubic (0, 0) (1, 2) (2, 0)).1
          (quadToCubic (0, 0) (1, 2) (2, 0)).2 (2, 0) (1 / 2)).2 -
        (quadBezier (0, 0) (1, 2) (2, 0) (1 / 2)).2| ≤ 1 / 1000000000) := by
  have hgen : ∀ (p0 p1 p2 : ℚ × ℚ) (t : ℚ),
      cubicBezier p0 (quadToCubic p0 p1 p2).1 (quadToCubic p0 p1 p2).2 p2 t =
        quadBezier p0 p1 p2 t := by
    intro p0 p1 p2 t
    apply Prod.ext
    · simp only [cubicBezier, quadBezier, quadToCubic]
      ring
    · simp only [cubicBezier, quadBezier, quadToCubic]
      ring
  refine ⟨fun _ _ _ => rfl, hgen, ?_, ?_⟩
  · rw [hgen]
    norm_num
  · rw [hgen]
    norm_num

/-! ## Claim C9 — run-length delta expansion and consumption -/

/--
C9: `parseDeltaValues` expands every group `g count value` into `count`
repetitions of `value` concatenated in order with literal tokens — in
particular `["g","3","10","5"]` expands to `[10,10,10,5]` — and during text
layout glyph `i` consumes entry `i` of the expanded sequence, with the final
entry reused for every glyph index past the end.
-/
theorem parseDeltaValues_spec :
    (∀ (jsNum : String → ℚ) (n : ℕ) (c v : String) (rest : List String),
        jsNum c = n →
        parseDeltaValues jsNum ("g" :: c :: v :: rest) =
          List.replicate n (jsNum v) ++ parseDeltaValues jsNum rest)
  ∧ (∀ (jsNum : String → ℚ) (t : String) (rest : List String), t ≠ "g" →
        parseDeltaValues jsNum (t :: rest) = jsNum t :: parseDeltaValues jsNum rest)
  ∧ parseDeltaValues decNum ["g", "3", "10", "5"] = [10, 10, 10, 5]
  ∧ (∀ (deltas : List ℚ) (i : ℕ), i < deltas.length →
        deltaAt deltas i = deltas.getD i 0)
  ∧ (∀ (deltas : List ℚ) (i : ℕ), deltas ≠ [] → deltas.length ≤ i →
        deltaAt deltas i = deltas.getD (deltas.length - 1) 0) := by
  refine ⟨?_, ?_, ?_, ?_, ?_⟩
  · intro jsNum n c v rest hc
    have hcount : jsLoopCount ((n : ℕ) : ℚ) = n := by
      unfold jsLoopCount
      rw [Int.ceil_natCast]
      exact Int.toNat_natCast n
    have hstep : parseDeltaValues jsNum ("g" :: c :: v :: rest) =
        List.replicate (jsLoopCount (jsNum c)) (jsNum v) ++ parseDeltaValues jsNum rest := rfl
    rw [hstep, hc, hcount]
  · intro jsNum t rest ht
    cases rest with
    | nil => simp [parseDeltaValues, ht]
    | cons a as =>
      cases as with
      | nil => simp [parseDeltaValues, ht]
      | cons b bs => simp [parseDeltaValues, ht]
  · decide
  · intro deltas i hi
    have : min i (deltas.length - 1) = i :=
      min_eq_left (Nat.le_sub_one_of_lt hi)
    simp [deltaAt, this]
  · intro deltas i _ hlen
    have : min i (deltas.length - 1) = deltas.length - 1 :=
      min_eq_right (le_trans (Nat.sub_le _ _) hlen)
    simp [deltaAt, this]

/-- C9 witnessed on concrete inputs: the group `g 3 10`, a literal token,
and in-range / past-the-end glyph indices over `[10,10,10,5]`. -/
theorem parseDeltaValues_spec_witness :
    parseDeltaValues decNum ("g" :: "3" :: "10" :: ["5"]) =
        List.replicate 3 (decNum "10") ++ parseDeltaValues decNum ["5"]
  ∧ parseDeltaValues decNum ("5" :: []) = decNum "5" :: parseDeltaValues decNum []
  ∧ deltaAt [10, 10, 10, 5] 1 = List.getD [10, 10, 10, 5] 1 0
  ∧ deltaAt [10, 10, 10, 5] 9 = List.getD [10, 10, 10, 5] (4 - 1) 0 := by
  refine ⟨?_, ?_, ?_, ?_⟩
  · exact parseDeltaValues_spec.1 decNum 3 "3" "10" ["5"] (by decide)
  · exact parseDeltaValues_spec.2.1 decNum "5" [] (by decide)
  · exact parseDeltaValues_spec.2.2.2.1 [10, 10, 10, 5] 1 (by decide)
  · exact parseDeltaValues_spec.2.2.2.2 [10, 10, 10, 5] 9 (by decide) (by decide)


/-! ## Claim C10 — painting-operator selection -/

/--
C10: for a path object with a non-empty command list, the combined
fill-and-stroke operator is emitted exactly when fill is enabled, stroke is
not disabled and a stroke color is present; with fill enabled but no stroke
color only a fill operator is emitted even though stroke is not disabled;
with fill disabled and stroke not disabled the path is stroked; and an
absent color defaults to black.
-/
theorem renderPathObject_paint_spec :
    (∀ o : OfdPathObject, o.commands ≠ [] →
        (renderPathObjectPaintOps o = [PaintOp.fillAndStroke] ↔
          (jsTruthyB o.fill = true ∧ jsNotFalse o.stroke = true ∧ o.strokeColor.isSome = true)))
  ∧ (∀ o : OfdPathObject, o.commands ≠ [] → jsTruthyB o.fill = true →
        jsNotFalse o.stroke = true → o.strokeColor = none →
        renderPathObjectPaintOps o = [PaintOp.fillOnly])
  ∧ (∀ o : OfdPathObject, o.commands ≠ [] → jsTruthyB o.fill = false →
        jsNotFalse o.stroke = true →
        renderPathObjectPaintOps o = [PaintOp.strokeOnly])
  ∧ (∀ jsNum : String → ℚ, parseColorComponents jsNum none = ⟨0, 0, 0⟩) := by
  refine ⟨?_, ?_, ?_, ?_⟩
  · intro o hcmd
    rw [renderPathObjectPaintOps, if_neg hcmd]
    unfold pathPaintOps
    constructor
    · intro h
      by_cases h1 : jsTruthyB o.fill && jsNotFalse o.stroke && o.strokeColor.isSome
      · simp only [Bool.and_eq_true] at h1
        exact ⟨h1.1.1, h1.1.2, h1.2⟩
      · rw [if_neg h1] at h
        by_cases h2 : jsTruthyB o.fill = true
        · rw [if_pos h2] at h; cases h
        · rw [if_neg h2] at h
          by_cases h3 : jsNotFalse o.stroke = true
          · rw [if_pos h3] at h; cases h
          · rw [if_neg h3] at h; cases h
    · rintro ⟨h1, h2, h3⟩
      rw [if_pos (by simp [h1, h2, h3])]
  · intro o hcmd h1 h2 h3
    rw [renderPathObjectPaintOps, if_neg hcmd]
    unfold pathPaintOps
    rw [if_neg (by simp [h3]), if_pos h1]
  · intro o hcmd h1 h2
    rw [renderPathObjectPaintOps, if_neg hcmd]
    unfold pathPaintOps
    rw [if_neg (by simp [h1]), if_neg (by simp [h1]), if_pos h2]
  · intro jsNum
    rfl

/-- C10 witnessed: fill with stroke color gives fill-and-stroke; fill
without stroke color drops the stroke; stroke without fill strokes. -/
theorem renderPathObject_paint_spec_witness :
    renderPathObjectPaintOps
        { id := "", boundary := ⟨0, 0, 1, 1⟩, abbreviatedData := "", commands := [PathCmd.C]
          fill := some true, stroke := some true
          strokeColor := some { value := "0 0 0" } } = [PaintOp.fillAndStroke]
  ∧ renderPathObjectPaintOps
        { id := "", boundary := ⟨0, 0, 1, 1⟩, abbreviatedData := "", commands := [PathCmd.C]
          fill := some true, stroke := some true, strokeColor := none } = [PaintOp.fillOnly]
  ∧ renderPathObjectPaintOps
        { id := "", boundary := ⟨0, 0, 1, 1⟩, abbreviatedData := "", commands := [PathCmd.C]
          fill := some false, stroke := none, strokeColor := none } = [PaintOp.strokeOnly] := by
  refine ⟨?_, ?_, ?_⟩
  · exact (renderPathObject_paint_spec.1 _ (by decide)).mpr ⟨rfl, rfl, rfl⟩
  · exact renderPathObject_paint_spec.2.1 _ (by decide) rfl rfl rfl
  · exact renderPathObject_paint_spec.2.2.1 _ (by decide) rfl rfl

/-! ## Claim C3 — per-object failure isolation -/

/-- Splitting lemma for the object loop. -/
theorem renderLayerObjects_append {e a : Type} (render : OfdObject → Except e (List a))
    (xs ys : List OfdObject) :
    renderLayerObjects render (xs ++ ys) =
      renderLayerObjects render xs ++ renderLayerObjects render ys := by
  induction xs with
  | nil => simp [renderLayerObjects]
  | cons o rest ih => simp [renderLayerObjects, ih]

/--
C3: a failing object is skipped — the rendered output of a document
containing it equals the output of the same document without it — so every
subsequent object in the same layer, in later layers and on later pages is
still rendered, and the failure never leaves the page loop.
-/
theorem renderToPdf_object_isolation {e a : Type}
    (render : OfdObject → Except e (List a))
    (pages1 pages2 : List OfdPage) (page : OfdPage) (pre post : List OfdLayer)
    (layer : OfdLayer) (xs ys : List OfdObject) (o : OfdObject) (err : e)
    (h : render o = .error err) :
    renderPagesOps render
        (pages1 ++
          ({ page with layers :=
              pre ++ ({ layer with objects := xs ++ o :: ys }) :: post }) :: pages2)
      = renderPagesOps render
        (pages1 ++
          ({ page with layers :=
              pre ++ ({ layer with objects := xs ++ ys }) :: post }) :: pages2) := by
  simp only [renderPagesOps, renderPageObjects, List.map_append, List.map_cons]
  have hmid : renderLayerObjects render (xs ++ o :: ys) =
      renderLayerObjects render (xs ++ ys) := by
    rw [renderLayerObjects_append, renderLayerObjects_append]
    simp [renderLayerObjects, h]
  simp [hmid]

/-- C3 witnessed: a failing image object in the middle of a layer leaves
the surrounding text objects' output unchanged. -/
theorem renderToPdf_object_isolation_witness :
    renderPagesOps
        (renderDispatch (fun _ => Except.ok [1]) (fun _ => Except.ok [2])
          (fun _ => Except.error "bad image"))
        ([] ++
          ({ id := "p", index := 0, layers :=
              [] ++ ({ objects :=
                [OfdObject.text { id := "t", boundary := ⟨0,0,1,1⟩, font := "f", size := 1 }] ++
                  OfdObject.image { id := "i", boundary := ⟨0,0,1,1⟩, resourceId := "r" } ::
                  [OfdObject.text { id := "u", boundary := ⟨0,0,1,1⟩, font := "f", size := 1 }] } : OfdLayer) :: [] } : OfdPage) :: [])
      = renderPagesOps
        (renderDispatch (fun _ => Except.ok [1]) (fun _ => Except.ok [2])
          (fun _ => Except.error "bad image"))
        ([] ++
          ({ id := "p", index := 0, layers :=
              [] ++ ({ objects :=
                [OfdObject.text { id := "t", boundary := ⟨0,0,1,1⟩, font := "f", size := 1 }] ++
                  [OfdObject.text { id := "u", boundary := ⟨0,0,1,1⟩, font := "f", size := 1 }] } : OfdLayer) :: [] } : OfdPage) :: []) := by
  exact renderToPdf_object_isolation
    (renderDispatch (fun _ => Except.ok [1]) (fun _ => Except.ok [2])
      (fun _ => Except.error "bad image"))
    [] [] { id := "p", index := 0, layers := [] } [] []
    { objects := [] }
    [OfdObject.text { id := "t", boundary := ⟨0,0,1,1⟩, font := "f", size := 1 }]
    [OfdObject.text { id := "u", boundary := ⟨0,0,1,1⟩, font := "f", size := 1 }]
    (OfdObject.image { id := "i", boundary := ⟨0,0,1,1⟩, resourceId := "r" })
    "bad image" rfl

/-! ## Claim C1 — serialization-failure fallback -/

/--
C1 (code bug): a save-time failure is not routed to the fallback.  The
`catch` around `return pdfDoc.save()` lacks an `await`, so the async
rejection propagates to the caller even for documents whose fallback render
(`renderToPdfSafe`, which resolves every font to a built-in standard one)
would succeed — contradicting the claim and the code's own catch comment
"If save fails ... recreate PDF using only standard fonts".
-/
theorem renderToPdf_save_failure_propagates {e a b : Type} (env : FontEnv)
    (renderMain renderSafe : OfdObject → Except e (List a))
    (save : RenderedPdf a → Except e b) (doc : OfdDocument) :
    (∀ err : e, save (buildRenderedPdf (resolveFontMain env) renderMain doc) = .error err →
        renderToPdf env renderMain save doc = .error err)
  ∧ (∀ (err : e) (bytes : b),
        save (buildRenderedPdf (resolveFontMain env) renderMain doc) = .error err →
        renderToPdfSafe env renderSafe save doc = .ok bytes →
        renderToPdf env renderMain save doc = .error err)
  ∧ (∀ (fid : String) (rf : ResolvedFont),
        (fid, rf) ∈ (buildRenderedPdf (resolveFontSafe env) renderSafe doc).fonts →
        ∃ sf, rf = ResolvedFont.standard sf) := by
  refine ⟨?_, ?_, ?_⟩
  · intro err hsave
    exact hsave
  · intro err bytes hsave _
    exact hsave
  · intro fid rf hmem
    simp only [buildRenderedPdf, List.mem_map] at hmem
    obtain ⟨p, _, hp⟩ := hmem
    have hrf : rf = resolveFontSafe env p.2 := by
      have := congrArg Prod.snd hp
      simpa using this.symm
    rw [hrf]
    unfold resolveFontSafe
    split
    · exact ⟨_, rfl⟩
    · exact ⟨_, rfl⟩

/-- C1 witnessed at the failing input: the serialization rejects on the
CJK-resolved font table and would succeed on the fallback's standard-font
one, yet `renderToPdf` returns the rejection to the caller. -/
theorem renderToPdf_save_failure_propagates_witness :
    renderToPdf
        { hasFontkit := true, cjkFontLoaded := true,
          archiveFontOk := fun _ => false, embedOk := fun _ => false,
          stdEmbedOk := fun _ => true }
        (fun _ => Except.ok ([] : List Unit))
        (fun pdf => match pdf.fonts with
          | [(_, ResolvedFont.cjk)] => Except.error "fontkit tables"
          | _ => Except.ok "pdfbytes")
        { physicalBox := ⟨0, 0, 210, 297⟩,
          fonts := [("f1", { id := "f1", name := "SimSun" })],
          images := [], pages := [], basePath := "" } = Except.error "fontkit tables"
  ∧ renderToPdfSafe
        { hasFontkit := true, cjkFontLoaded := true,
          archiveFontOk := fun _ => false, embedOk := fun _ => false,
          stdEmbedOk := fun _ => true }
        (fun _ => Except.ok ([] : List Unit))
        (fun pdf => match pdf.fonts with
          | [(_, ResolvedFont.cjk)] => Except.error "fontkit tables"
          | _ => Except.ok "pdfbytes")
        { physicalBox := ⟨0, 0, 210, 297⟩,
          fonts := [("f1", { id := "f1", name := "SimSun" })],
          images := [], pages := [], basePath := "" } = Except.ok "pdfbytes" := by
  constructor
  · exact (renderToPdf_save_failure_propagates _ _
      (fun _ => Except.ok ([] : List Unit)) _ _).2.1 "fontkit tables" "pdfbytes" rfl rfl
  · rfl

/-! ## Claim C2 — fatal conditions of the document parser -/

/--
C2: if the entry descriptor cannot be found, or the document descriptor it
points to cannot be located or read, `parseOfdXml` throws — the result is an
error carrying no document value — and a successful parse implies the entry
descriptor was found.
-/
theorem parseOfdXml_fatal_spec (parseXml : String → JVal) (jsNum : String → ℚ)
    (archive : Archive) :
    (jsTruthyStr (findOfdXml archive) = none →
        isErr (parseOfdXml parseXml jsNum archive) = true)
  ∧ (∀ (ofdContent : String) (body : JVal) (docPath : String),
        jsTruthyStr (findOfdXml archive) = some ofdContent →
        jvalTruthy (getXmlVal (some ((getXmlVal (some (parseXml ofdContent)) ["OFD"]).getD
          (parseXml ofdContent))) ["DocBody"]) = some body →
        jsTruthyStr ((getXmlVal (some body) ["DocRoot"]).bind jText) = some docPath →
        jsTruthyStr (readTextFile archive docPath) = none →
        isErr (parseOfdXml parseXml jsNum archive) = true)
  ∧ (∀ doc : OfdDocument, parseOfdXml parseXml jsNum archive = .ok doc →
        jsTruthyStr (findOfdXml archive) ≠ none) := by
  refine ⟨?_, ?_, ?_⟩
  · intro h
    simp [parseOfdXml, h, isErr]
  · intro ofdContent body docPath h1 h2 h3 h4
    simp [parseOfdXml, h1, h2, h3, h4, isErr]
  · intro doc hok h
    rw [show parseOfdXml parseXml jsNum archive =
        .error "Invalid OFD file: OFD.xml not found in archive" by
      simp [parseOfdXml, h]] at hok
    cases hok

/-- C2 witnessed: an archive without `OFD.xml` errors, and one whose entry
points at an absent `Doc_0/Document.xml` errors as well. -/
theorem parseOfdXml_fatal_spec_witness :
    isErr (parseOfdXml pxStubC2 decNum archNoEntry) = true
  ∧ isErr (parseOfdXml pxStubC2 decNum archMissingDoc) = true := by
  constructor
  · exact (parseOfdXml_fatal_spec pxStubC2 decNum archNoEntry).1 rfl
  · exact (parseOfdXml_fatal_spec pxStubC2 decNum archMissingDoc).2.1
      "entry" (JVal.obj [("ofd:DocRoot", JVal.str "Doc_0/Document.xml")])
      "Doc_0/Document.xml" rfl rfl rfl rfl

/-! ## Claim C4 — missing page content -/

/--
C4 (counterexample): with two page references of which the first has no
content file in the archive, the page loop produces only one page (for the
second reference) — the claim's empty-layer page for the first reference
does not exist, so the result has one page, not two.
-/
theorem parsePagesLoop_missing_page_counterexample :
    parsePagesLoop pxStubC4 decNum archC4 "Doc_0/Document.xml" ⟨0, 0, 210, 297⟩
        [refC4missing, refC4present]
      = [{ id := "2", index := 1, area := some ⟨0, 0, 210, 297⟩, layers := [],
           templateId := none }]
  ∧ (parsePagesLoop pxStubC4 decNum archC4 "Doc_0/Document.xml" ⟨0, 0, 210, 297⟩
        [refC4missing, refC4present]).length ≠ 2 := by
  constructor
  · rfl
  · decide

/--
C4 (amended): a page reference whose content file is missing or unreadable
is skipped — no page at all is produced for it — while parsing of the other
references continues: the produced pages correspond exactly, in order and
with their original indices, to the references whose `BaseLoc` is truthy
and whose resolved content file is present and non-empty.
-/
theorem parsePagesLoop_spec (parseXml : String → JVal) (jsNum : String → ℚ)
    (archive : Archive) (docPath : String) (box : CTBox) (pageRefs : List JVal) :
    (parsePagesLoop parseXml jsNum archive docPath box pageRefs).map (fun p => p.index)
      = (pageRefs.enum.filter (fun ir => refReadable archive docPath ir.2)).map
          (fun ir => ir.1) := by
  unfold parsePagesLoop
  generalize pageRefs.enum = l
  induction l with
  | nil => rfl
  | cons ir rest ih =>
    simp only [List.filterMap_cons, List.filter_cons]
    cases h1 : jsTruthyStr (jAttr ir.2 "@_BaseLoc") with
    | none =>
      have hr : refReadable archive docPath ir.2 = false := by
        simp [refReadable, h1]
      simp [h1, hr, ih]
    | some loc =>
      cases h2 : jsTruthyStr (readTextFile archive (resolvePath docPath loc)) with
      | none =>
        have hr : refReadable archive docPath ir.2 = false := by
          simp [refReadable, h1, h2]
        simp [h1, h2, hr, ih]
      | some content =>
        have hr : refReadable archive docPath ir.2 = true := by
          simp [refReadable, h1, h2]
        have hidx : (parsePage jsNum (parseXml content)
            ((jAttr ir.2 "@_ID").getD (toString ir.1)) ir.1 box).index = ir.1 := rfl
        simp [h1, h2, hr, ih, hidx]


/-! ## Claim C5 — layer draw order: bridge lemmas for the grouped view -/

/-- Lookup in a tag-keyed field list built by mapping over the tag list. -/
theorem jGetFields_map_keyed (g : String → JVal) (l : List String) (name : String) :
    jGetFields (l.map (fun t => (t, g t))) name =
      if name ∈ l then some (g name) else none := by
  induction l with
  | nil => simp [jGetFields]
  | cons t rest ih =>
    by_cases h : t = name
    · subst h
      simp [jGetFields]
    · have h2 : ¬ name = t := fun hh => h hh.symm
      simp [jGetFields, h, ih, List.mem_cons, h2]

/-- Membership in the first-occurrence deduplication. -/
theorem mem_dedupKeepFirst (l : List String) (x : String) :
    x ∈ dedupKeepFirst l ↔ x ∈ l := by
  unfold dedupKeepFirst
  suffices h : ∀ acc : List String,
      x ∈ l.foldl (fun acc t => if t ∈ acc then acc else acc ++ [t]) acc ↔
        x ∈ acc ∨ x ∈ l by
    simpa using h []
  induction l with
  | nil => intro acc; simp
  | cons t rest ih =>
    intro acc
    simp only [List.foldl_cons]
    by_cases ht : t ∈ acc
    · rw [if_pos ht, ih]
      simp only [List.mem_cons]
      constructor
      · rintro (hx | hx)
        · exact Or.inl hx
        · exact Or.inr (Or.inr hx)
      · rintro (hx | hx | hx)
        · exact Or.inl hx
        · exact Or.inl (hx ▸ ht)
        · exact Or.inr hx
    · rw [if_neg ht, ih]
      simp only [List.mem_append, List.mem_singleton, List.mem_cons]
      tauto

/-- Field access on the grouped view of a source child list. -/
theorem jGet_groupToJVal (children : List SrcChild) (name : String) :
    jGet (groupToJVal children) name =
      if name ∈ children.map srcTag then
        some (JVal.arr ((children.filter (fun c => srcTag c = name)).map srcChildVal))
      else none := by
  rw [groupToJVal]
  show jGetFields _ name = _
  rw [jGetFields_map_keyed (fun t =>
    JVal.arr ((children.filter (fun c => srcTag c = t)).attach.map
      (fun c => srcChildVal c.1)))]
  rw [List.attach_map_val]
  by_cases hm : name ∈ children.map srcTag
  · rw [if_pos ((mem_dedupKeepFirst _ _).mpr hm), if_pos hm]
  · rw [if_neg (fun hh => hm ((mem_dedupKeepFirst _ _).mp hh)), if_neg hm]

/-- `getVal` on the grouped view: the plain tag is absent, the namespaced
one resolves to the grouped array when present. -/
theorem getXmlVal_groupToJVal (children : List SrcChild) (N : String)
    (hN : N ∉ children.map srcTag) :
    getXmlVal (some (groupToJVal children)) [N] =
      if ("ofd:" ++ N) ∈ children.map srcTag then
        some (JVal.arr ((children.filter
          (fun c => srcTag c = "ofd:" ++ N)).map srcChildVal))
      else none := by
  have h1 : jGet (groupToJVal children) N = none := by
    rw [jGet_groupToJVal, if_neg hN]
  by_cases hm : ("ofd:" ++ N) ∈ children.map srcTag
  · have h2 := jGet_groupToJVal children ("ofd:" ++ N)
    rw [if_pos hm] at h2
    rw [if_pos hm]
    simp [getXmlVal, h1, h2]
  · have h2 := jGet_groupToJVal children ("ofd:" ++ N)
    rw [if_neg hm] at h2
    rw [if_neg hm]
    simp [getXmlVal, h1, h2]

/-- `ensureArray (getVal …)` on the grouped view yields exactly the children
carrying the namespaced tag, in source order. -/
theorem ensureArray_groupToJVal (children : List SrcChild) (N : String)
    (hN : N ∉ children.map srcTag) :
    ensureArray (getXmlVal (some (groupToJVal children)) [N]) =
      (children.filter (fun c => srcTag c = "ofd:" ++ N)).map srcChildVal := by
  rw [getXmlVal_groupToJVal children N hN]
  by_cases hm : ("ofd:" ++ N) ∈ children.map srcTag
  · rw [if_pos hm]
    rfl
  · rw [if_neg hm]
    have hf : children.filter (fun c => srcTag c = "ofd:" ++ N) = [] := by
      rw [List.filter_eq_nil_iff]
      intro c hc hp
      exact hm (List.mem_map.mpr ⟨c, hc, by simpa using hp⟩)
    rw [hf]
    rfl

/-- A well-formed child carries one of the four namespaced tags. -/
theorem wf_srcTag {c : SrcChild} (h : ChildWF c) :
    srcTag c = "ofd:TextObject" ∨ srcTag c = "ofd:PathObject" ∨
      srcTag c = "ofd:ImageObject" ∨ srcTag c = "ofd:PageBlock" := by
  cases h <;> simp [srcTag]

/-- Under well-formedness no child carries a given non-namespaced tag. -/
theorem plainTag_not_mem (children : List SrcChild)
    (hwf : ∀ c ∈ children, ChildWF c) (N : String)
    (h1 : N ≠ "ofd:TextObject") (h2 : N ≠ "ofd:PathObject")
    (h3 : N ≠ "ofd:ImageObject") (h4 : N ≠ "ofd:PageBlock") :
    N ∉ children.map srcTag := by
  intro hmem
  obtain ⟨c, hc, htag⟩ := List.mem_map.mp hmem
  rcases wf_srcTag (hwf c hc) with h | h | h | h
  · exact h1 (htag ▸ h)
  · exact h2 (htag ▸ h)
  · exact h3 (htag ▸ h)
  · exact h4 (htag ▸ h)


/-- Under well-formedness, the text-tagged children mapped through the
object parser are exactly the text selections, in order. -/
theorem filter_map_tsel (jsNum : String → ℚ) :
    ∀ children : List SrcChild, (∀ c ∈ children, ChildWF c) →
      ((children.filter (fun c => srcTag c = "ofd:TextObject")).map srcChildVal).map
        (fun o => OfdObject.text (parseTextObject jsNum o))
      = children.filterMap (tsel jsNum) := by
  intro children
  induction children with
  | nil => intro _; rfl
  | cons c rest ih =>
    intro hwf
    have hrest := fun x hx => hwf x (List.mem_cons_of_mem _ hx)
    cases hwf c (List.mem_cons_self _ _) with
    | elText v =>
      rw [show (SrcChild.el "ofd:TextObject" v :: rest).filter
            (fun c => srcTag c = "ofd:TextObject")
          = SrcChild.el "ofd:TextObject" v ::
              rest.filter (fun c => srcTag c = "ofd:TextObject") from rfl,
        show (SrcChild.el "ofd:TextObject" v :: rest).filterMap (tsel jsNum)
          = OfdObject.text (parseTextObject jsNum v) ::
              rest.filterMap (tsel jsNum) from rfl]
      simp only [List.map_cons]
      rw [show srcChildVal (SrcChild.el "ofd:TextObject" v) = v from by
        simp [srcChildVal]]
      rw [ih hrest]
    | elPath v =>
      rw [show (SrcChild.el "ofd:PathObject" v :: rest).filter
            (fun c => srcTag c = "ofd:TextObject")
          = rest.filter (fun c => srcTag c = "ofd:TextObject") from rfl,
        show (SrcChild.el "ofd:PathObject" v :: rest).filterMap (tsel jsNum)
          = rest.filterMap (tsel jsNum) from rfl]
      exact ih hrest
    | elImage v =>
      rw [show (SrcChild.el "ofd:ImageObject" v :: rest).filter
            (fun c => srcTag c = "ofd:TextObject")
          = rest.filter (fun c => srcTag c = "ofd:TextObject") from rfl,
        show (SrcChild.el "ofd:ImageObject" v :: rest).filterMap (tsel jsNum)
          = rest.filterMap (tsel jsNum) from rfl]
      exact ih hrest
    | blockWF cs hcs =>
      rw [show (SrcChild.block "ofd:PageBlock" cs :: rest).filter
            (fun c => srcTag c = "ofd:TextObject")
          = rest.filter (fun c => srcTag c = "ofd:TextObject") from rfl,
        show (SrcChild.block "ofd:PageBlock" cs :: rest).filterMap (tsel jsNum)
          = rest.filterMap (tsel jsNum) from rfl]
      exact ih hrest

/-- Under well-formedness, the path-tagged children mapped through the
object parser are exactly the path selections, in order. -/
theorem filter_map_psel (jsNum : String → ℚ) :
    ∀ children : List SrcChild, (∀ c ∈ children, ChildWF c) →
      ((children.filter (fun c => srcTag c = "ofd:PathObject")).map srcChildVal).map
        (fun o => OfdObject.path (parsePathObject jsNum o))
      = children.filterMap (psel jsNum) := by
  intro children
  induction children with
  | nil => intro _; rfl
  | cons c rest ih =>
    intro hwf
    have hrest := fun x hx => hwf x (List.mem_cons_of_mem _ hx)
    cases hwf c (List.mem_cons_self _ _) with
    | elText v =>
      rw [show (SrcChild.el "ofd:TextObject" v :: rest).filter
            (fun c => srcTag c = "ofd:PathObject")
          = rest.filter (fun c => srcTag c = "ofd:PathObject") from rfl,
        show (SrcChild.el "ofd:TextObject" v :: rest).filterMap (psel jsNum)
          = rest.filterMap (psel jsNum) from rfl]
      exact ih hrest
    | elPath v =>
      rw [show (SrcChild.el "ofd:PathObject" v :: rest).filter
            (fun c => srcTag c = "ofd:PathObject")
          = SrcChild.el "ofd:PathObject" v ::
              rest.filter (fun c => srcTag c = "ofd:PathObject") from rfl,
        show (SrcChild.el "ofd:PathObject" v :: rest).filterMap (psel jsNum)
          = OfdObject.path (parsePathObject jsNum v) ::
              rest.filterMap (psel jsNum) from rfl]
      simp only [List.map_cons]
      rw [show srcChildVal (SrcChild.el "ofd:PathObject" v) = v from by
        simp [srcChildVal]]
      rw [ih hrest]
    | elImage v =>
      rw [show (SrcChild.el "ofd:ImageObject" v :: rest).filter
            (fun c => srcTag c = "ofd:PathObject")
          = rest.filter (fun c => srcTag c = "ofd:PathObject") from rfl,
        show (SrcChild.el "ofd:ImageObject" v :: rest).filterMap (psel jsNum)
          = rest.filterMap (psel jsNum) from rfl]
      exact ih hrest
    | blockWF cs hcs =>
      rw [show (SrcChild.block "ofd:PageBlock" cs :: rest).filter
            (fun c => srcTag c = "ofd:PathObject")
          = rest.filter (fun c => srcTag c = "ofd:PathObject") from rfl,
        show (SrcChild.block "ofd:PageBlock" cs :: rest).filterMap (psel jsNum)
          = rest.filterMap (psel jsNum) from rfl]
      exact ih hrest

/-- Under well-formedness, the image-tagged children mapped through the
object parser are exactly the image selections, in order. -/
theorem filter_map_isel (jsNum : String → ℚ) :
    ∀ children : List SrcChild, (∀ c ∈ children, ChildWF c) →
      ((children.filter (fun c => srcTag c = "ofd:ImageObject")).map srcChildVal).map
        (fun o => OfdObject.image (parseImageObject jsNum o))
      = children.filterMap (isel jsNum) := by
  intro children
  induction children with
  | nil => intro _; rfl
  | cons c rest ih =>
    intro hwf
    have hrest := fun x hx => hwf x (List.mem_cons_of_mem _ hx)
    cases hwf c (List.mem_cons_self _ _) with
    | elText v =>
      rw [show (SrcChild.el "ofd:TextObject" v :: rest).filter
            (fun c => srcTag c = "ofd:ImageObject")
          = rest.filter (fun c => srcTag c = "ofd:ImageObject") from rfl,
        show (SrcChild.el "ofd:TextObject" v :: rest).filterMap (isel jsNum)
          = rest.filterMap (isel jsNum) from rfl]
      exact ih hrest
    | elPath v =>
      rw [show (SrcChild.el "ofd:PathObject" v :: rest).filter
            (fun c => srcTag c = "ofd:ImageObject")
          = rest.filter (fun c => srcTag c = "ofd:ImageObject") from rfl,
        show (SrcChild.el "ofd:PathObject" v :: rest).filterMap (isel jsNum)
          = rest.filterMap (isel jsNum) from rfl]
      exact ih hrest
    | elImage v =>
      rw [show (SrcChild.el "ofd:ImageObject" v :: rest).filter
            (fun c => srcTag c = "ofd:ImageObject")
          = SrcChild.el "ofd:ImageObject" v ::
              rest.filter (fun c => srcTag c = "ofd:ImageObject") from rfl,
        show (SrcChild.el "ofd:ImageObject" v :: rest).filterMap (isel jsNum)
          = OfdObject.image (parseImageObject jsNum v) ::
              rest.filterMap (isel jsNum) from rfl]
      simp only [List.map_cons]
      rw [show srcChildVal (SrcChild.el "ofd:ImageObject" v) = v from by
        simp [srcChildVal]]
      rw [ih hrest]
    | blockWF cs hcs =>
      rw [show (SrcChild.block "ofd:PageBlock" cs :: rest).filter
            (fun c => srcTag c = "ofd:ImageObject")
          = rest.filter (fun c => srcTag c = "ofd:ImageObject") from rfl,
        show (SrcChild.block "ofd:PageBlock" cs :: rest).filterMap (isel jsNum)
          = rest.filterMap (isel jsNum) from rfl]
      exact ih hrest

/-- Under well-formedness and the induction hypothesis on smaller sources,
recursing `parseLayer` into the grouped blocks equals the direct block
contributions. -/
theorem blocks_flatten_eq (jsNum : String → ℚ) (n : ℕ)
    (ihb : ∀ src : List SrcChild, sizeOf src < n → (∀ c ∈ src, ChildWF c) →
      (parseLayer jsNum (groupToJVal src)).objects = parseLayerSrcObjects jsNum src) :
    ∀ l : List SrcChild, (∀ c ∈ l, ChildWF c) → (∀ c ∈ l, sizeOf c < n) →
      (((l.filter (fun c => srcTag c = "ofd:PageBlock")).map srcChildVal).map
        (fun b => (parseLayer jsNum b).objects)).flatten
      = (l.map (blockObjsOf jsNum)).flatten := by
  intro l
  induction l with
  | nil => intro _ _; rfl
  | cons c rest ihl =>
    intro hwf hsz
    have hrest1 := fun x hx => hwf x (List.mem_cons_of_mem _ hx)
    have hrest2 := fun x hx => hsz x (List.mem_cons_of_mem _ hx)
    cases hwf c (List.mem_cons_self _ _) with
    | elText v =>
      rw [show (SrcChild.el "ofd:TextObject" v :: rest).filter
            (fun c => srcTag c = "ofd:PageBlock")
          = rest.filter (fun c => srcTag c = "ofd:PageBlock") from rfl]
      simp only [List.map_cons, List.flatten_cons]
      rw [show blockObjsOf jsNum (SrcChild.el "ofd:TextObject" v) = [] from by
        simp [blockObjsOf]]
      rw [ihl hrest1 hrest2]
      rfl
    | elPath v =>
      rw [show (SrcChild.el "ofd:PathObject" v :: rest).filter
            (fun c => srcTag c = "ofd:PageBlock")
          = rest.filter (fun c => srcTag c = "ofd:PageBlock") from rfl]
      simp only [List.map_cons, List.flatten_cons]
      rw [show blockObjsOf jsNum (SrcChild.el "ofd:PathObject" v) = [] from by
        simp [blockObjsOf]]
      rw [ihl hrest1 hrest2]
      rfl
    | elImage v =>
      rw [show (SrcChild.el "ofd:ImageObject" v :: rest).filter
            (fun c => srcTag c = "ofd:PageBlock")
          = rest.filter (fun c => srcTag c = "ofd:PageBlock") from rfl]
      simp only [List.map_cons, List.flatten_cons]
      rw [show blockObjsOf jsNum (SrcChild.el "ofd:ImageObject" v) = [] from by
        simp [blockObjsOf]]
      rw [ihl hrest1 hrest2]
      rfl
    | blockWF cs hcs =>
      have hszc := hsz _ (List.mem_cons_self _ _)
      have hcs_sz : sizeOf cs < n := by
        simp only [SrcChild.block.sizeOf_spec] at hszc
        omega
      have hb := ihb cs hcs_sz hcs
      rw [show (SrcChild.block "ofd:PageBlock" cs :: rest).filter
            (fun c => srcTag c = "ofd:PageBlock")
          = SrcChild.block "ofd:PageBlock" cs ::
              rest.filter (fun c => srcTag c = "ofd:PageBlock") from rfl]
      simp only [List.map_cons, List.flatten_cons]
      rw [show srcChildVal (SrcChild.block "ofd:PageBlock" cs) = groupToJVal cs from by
        simp [srcChildVal]]
      rw [show blockObjsOf jsNum (SrcChild.block "ofd:PageBlock" cs)
          = parseLayerSrcObjects jsNum cs from by simp [blockObjsOf]]
      rw [hb, ihl hrest1 hrest2]

/-- The bridge: on a well-formed source child list, `parseLayer` applied to
the grouped markup view produces exactly the kind-grouped traversal of the
source. -/
theorem parseLayer_groupToJVal_eq (jsNum : String → ℚ) :
    ∀ src : List SrcChild, (∀ c ∈ src, ChildWF c) →
      (parseLayer jsNum (groupToJVal src)).objects = parseLayerSrcObjects jsNum src := by
  suffices h : ∀ (n : ℕ) (src : List SrcChild), sizeOf src < n →
      (∀ c ∈ src, ChildWF c) →
      (parseLayer jsNum (groupToJVal src)).objects = parseLayerSrcObjects jsNum src by
    exact fun src hwf => h (sizeOf src + 1) src (by omega) hwf
  intro n
  induction n with
  | zero => intro src h; exact absurd h (Nat.not_lt_zero _)
  | succ n ih =>
    intro src hsz hwf
    have hn4 := plainTag_not_mem src hwf
    have hT := ensureArray_groupToJVal src "TextObject"
      (hn4 _ (by decide) (by decide) (by decide) (by decide))
    have hP := ensureArray_groupToJVal src "PathObject"
      (hn4 _ (by decide) (by decide) (by decide) (by decide))
    have hI := ensureArray_groupToJVal src "ImageObject"
      (hn4 _ (by decide) (by decide) (by decide) (by decide))
    have hB := ensureArray_groupToJVal src "PageBlock"
      (hn4 _ (by decide) (by decide) (by decide) (by decide))
    have happ : ∀ N : String, ("ofd:" ++ N : String) = "ofd:" ++ N := fun _ => rfl
    rw [parseLayer.eq_def]
    dsimp only
    rw [hT, hP, hI, hB]
    rw [show ("ofd:" ++ "TextObject" : String) = "ofd:TextObject" from rfl,
        show ("ofd:" ++ "PathObject" : String) = "ofd:PathObject" from rfl,
        show ("ofd:" ++ "ImageObject" : String) = "ofd:ImageObject" from rfl,
        show ("ofd:" ++ "PageBlock" : String) = "ofd:PageBlock" from rfl]
    rw [List.attach_map_val
      ((src.filter (fun c => srcTag c = "ofd:PageBlock")).map srcChildVal)
      (fun b => (parseLayer jsNum b).objects)]
    rw [filter_map_tsel jsNum src hwf, filter_map_psel jsNum src hwf,
        filter_map_isel jsNum src hwf]
    have hszmem : ∀ c ∈ src, sizeOf c < n := by
      intro c hc
      have h1 := List.sizeOf_lt_of_mem hc
      omega
    rw [blocks_flatten_eq jsNum n ih src hwf hszmem]
    rw [parseLayerSrcObjects.eq_def]
    rw [List.attach_map_val]


/-- Grouped-form characterization of the source-level traversal. -/
theorem parseLayerSrcObjects_eq (jsNum : String → ℚ) (children : List SrcChild) :
    parseLayerSrcObjects jsNum children =
      children.filterMap (tsel jsNum) ++ children.filterMap (psel jsNum)
      ++ children.filterMap (isel jsNum) ++ (children.map (blockObjsOf jsNum)).flatten := by
  rw [parseLayerSrcObjects.eq_def]
  rw [List.attach_map_val]

/-- Pulling an interior block of a concatenation to the front is a
permutation. -/
theorem perm_append_middle {α : Type} (A X B : List α) :
    (A ++ (X ++ B)).Perm (X ++ (A ++ B)) := by
  have h2 : ((A ++ X) ++ B).Perm ((X ++ A) ++ B) :=
    (List.perm_append_comm).append_right B
  rw [← List.append_assoc, ← List.append_assoc]
  exact h2

/-- The kind-grouped traversal is a permutation of the source-encounter
order: same objects, reordered. -/
theorem parseLayerSrc_perm (jsNum : String → ℚ) :
    ∀ children : List SrcChild,
      (parseLayerSrcObjects jsNum children).Perm (specLayerObjects jsNum children) := by
  suffices h : ∀ (n : ℕ) (children : List SrcChild), sizeOf children < n →
      (parseLayerSrcObjects jsNum children).Perm (specLayerObjects jsNum children) by
    exact fun children => h (sizeOf children + 1) children (by omega)
  intro n
  induction n with
  | zero => intro children h; exact absurd h (Nat.not_lt_zero _)
  | succ n ih =>
    intro children hsz
    cases children with
    | nil =>
      rw [parseLayerSrcObjects_eq]
      simp [specLayerObjects]
    | cons c rest =>
      have hc1 : 1 ≤ sizeOf c := by
        cases c <;> simp only [SrcChild.el.sizeOf_spec, SrcChild.block.sizeOf_spec] <;> omega
      have hrest : sizeOf rest < n := by
        simp only [List.cons.sizeOf_spec] at hsz
        omega
      have hpackrest := (parseLayerSrcObjects_eq jsNum rest).symm
      cases c with
      | el t v =>
        rw [parseLayerSrcObjects_eq]
        by_cases ht : t = "TextObject" ∨ t = "ofd:TextObject"
        · have hp : ¬(t = "PathObject" ∨ t = "ofd:PathObject") := by
            rcases ht with h | h <;> subst h <;> decide
          have hi : ¬(t = "ImageObject" ∨ t = "ofd:ImageObject") := by
            rcases ht with h | h <;> subst h <;> decide
          simp only [List.filterMap_cons, List.map_cons, List.flatten_cons,
            show tsel jsNum (SrcChild.el t v) =
              some (OfdObject.text (parseTextObject jsNum v)) from by simp [tsel, ht],
            show psel jsNum (SrcChild.el t v) = none from by simp [psel, hp],
            show isel jsNum (SrcChild.el t v) = none from by simp [isel, hi],
            show blockObjsOf jsNum (SrcChild.el t v) = [] from by simp [blockObjsOf]]
          simp only [specLayerObjects, if_pos ht]
          simp only [List.cons_append, List.nil_append, List.append_assoc,
            List.singleton_append]
          refine List.Perm.cons _ ?_
          have hr := ih rest hrest
          rw [parseLayerSrcObjects_eq] at hr
          simpa [List.append_assoc] using hr
        · by_cases hp : t = "PathObject" ∨ t = "ofd:PathObject"
          · have hi : ¬(t = "ImageObject" ∨ t = "ofd:ImageObject") := by
              rcases hp with h | h <;> subst h <;> decide
            simp only [List.filterMap_cons, List.map_cons, List.flatten_cons,
              show tsel jsNum (SrcChild.el t v) = none from by simp [tsel, ht],
              show psel jsNum (SrcChild.el t v) =
                some (OfdObject.path (parsePathObject jsNum v)) from by simp [psel, hp],
              show isel jsNum (SrcChild.el t v) = none from by simp [isel, hi],
              show blockObjsOf jsNum (SrcChild.el t v) = [] from by simp [blockObjsOf]]
            simp only [specLayerObjects, if_neg ht, if_pos hp]
            simp only [List.cons_append, List.nil_append, List.append_assoc,
              List.singleton_append]
            refine List.Perm.trans List.perm_middle ?_
            refine List.Perm.cons _ ?_
            have hr := ih rest hrest
            rw [parseLayerSrcObjects_eq] at hr
            simpa [List.append_assoc] using hr
          · by_cases hi : t = "ImageObject" ∨ t = "ofd:ImageObject"
            · simp only [List.filterMap_cons, List.map_cons, List.flatten_cons,
                show tsel jsNum (SrcChild.el t v) = none from by simp [tsel, ht],
                show psel jsNum (SrcChild.el t v) = none from by simp [psel, hp],
                show isel jsNum (SrcChild.el t v) =
                  some (OfdObject.image (parseImageObject jsNum v)) from by
                    simp [isel, hi],
                show blockObjsOf jsNum (SrcChild.el t v) = [] from by simp [blockObjsOf]]
              simp only [specLayerObjects, if_neg ht, if_neg hp, if_pos hi]
              simp only [List.cons_append, List.nil_append, List.append_assoc,
                List.singleton_append]
              rw [← List.append_assoc]
              refine List.Perm.trans List.perm_middle ?_
              refine List.Perm.cons _ ?_
              have hr := ih rest hrest
              rw [parseLayerSrcObjects_eq] at hr
              simpa [List.append_assoc] using hr
            · simp only [List.filterMap_cons, List.map_cons, List.flatten_cons,
                show tsel jsNum (SrcChild.el t v) = none from by simp [tsel, ht],
                show psel jsNum (SrcChild.el t v) = none from by simp [psel, hp],
                show isel jsNum (SrcChild.el t v) = none from by simp [isel, hi],
                show blockObjsOf jsNum (SrcChild.el t v) = [] from by simp [blockObjsOf]]
              simp only [specLayerObjects, if_neg ht, if_neg hp, if_neg hi]
              simp only [List.nil_append, List.append_assoc]
              have hr := ih rest hrest
              rw [parseLayerSrcObjects_eq] at hr
              simpa [List.append_assoc] using hr
      | block t cs =>
        have hcs_sz : sizeOf cs < n := by
          simp only [List.cons.sizeOf_spec, SrcChild.block.sizeOf_spec] at hsz
          omega
        rw [parseLayerSrcObjects_eq]
        simp only [List.filterMap_cons, List.map_cons, List.flatten_cons,
          show tsel jsNum (SrcChild.block t cs) = none from by simp [tsel],
          show psel jsNum (SrcChild.block t cs) = none from by simp [psel],
          show isel jsNum (SrcChild.block t cs) = none from by simp [isel],
          show blockObjsOf jsNum (SrcChild.block t cs) =
            parseLayerSrcObjects jsNum cs from by simp [blockObjsOf]]
        simp only [specLayerObjects]
        simp only [List.append_assoc]
        have hshape : rest.filterMap (tsel jsNum) ++
              (rest.filterMap (psel jsNum) ++ (rest.filterMap (isel jsNum) ++
                (parseLayerSrcObjects jsNum cs ++ (rest.map (blockObjsOf jsNum)).flatten)))
            = (rest.filterMap (tsel jsNum) ++
                (rest.filterMap (psel jsNum) ++ rest.filterMap (isel jsNum))) ++
              (parseLayerSrcObjects jsNum cs ++ (rest.map (blockObjsOf jsNum)).flatten) := by
          simp [List.append_assoc]
        rw [hshape]
        refine List.Perm.trans
          (perm_append_middle
            (rest.filterMap (tsel jsNum) ++
              (rest.filterMap (psel jsNum) ++ rest.filterMap (isel jsNum)))
            (parseLayerSrcObjects jsNum cs)
            ((rest.map (blockObjsOf jsNum)).flatten)) ?_
        refine List.Perm.append (ih cs hcs_sz) ?_
        have hr := ih rest hrest
        rw [parseLayerSrcObjects_eq] at hr
        simpa [List.append_assoc] using hr


/--
C5 (amended): on a well-formed layer markup, `parseLayer` applied to the
grouped markup view produces the layer's text objects first, then its path
objects, then its image objects, then the flattened objects of nested
container blocks (each group in source order) — a permutation of the
source-encounter-order object list, but not that order itself.
-/
theorem parseLayer_grouped_spec (jsNum : String → ℚ) (src : List SrcChild)
    (hwf : ∀ c ∈ src, ChildWF c) :
    (parseLayer jsNum (groupToJVal src)).objects = parseLayerSrcObjects jsNum src
  ∧ ((parseLayer jsNum (groupToJVal src)).objects).Perm (specLayerObjects jsNum src) := by
  have h1 := parseLayer_groupToJVal_eq jsNum src hwf
  refine ⟨h1, ?_⟩
  rw [h1]
  exact parseLayerSrc_perm jsNum src

/-- C5 amended, witnessed at the two-object source layer. -/
theorem parseLayer_grouped_spec_witness :
    (parseLayer decNum (groupToJVal srcC5)).objects = parseLayerSrcObjects decNum srcC5
  ∧ ((parseLayer decNum (groupToJVal srcC5)).objects).Perm
      (specLayerObjects decNum srcC5) := by
  refine parseLayer_grouped_spec decNum srcC5 ?_
  intro c hc
  simp only [srcC5, List.mem_cons, List.mem_singleton] at hc
  rcases hc with rfl | rfl | hc
  · exact ChildWF.elPath _
  · exact ChildWF.elText _
  · exact absurd hc (List.not_mem_nil _)

/--
C5 (counterexample): for a source layer whose path object precedes its text
object, `parseLayer` emits the text object first — the object list is not
in source encounter order.
-/
theorem parseLayer_encounter_order_counterexample :
    (parseLayer decNum (groupToJVal srcC5)).objects =
        [OfdObject.text (parseTextObject decNum (JVal.obj [])),
         OfdObject.path (parsePathObject decNum (JVal.obj []))]
  ∧ specLayerObjects decNum srcC5 =
        [OfdObject.path (parsePathObject decNum (JVal.obj [])),
         OfdObject.text (parseTextObject decNum (JVal.obj []))]
  ∧ (parseLayer decNum (groupToJVal srcC5)).objects ≠ specLayerObjects decNum srcC5 := by
  have hwf : ∀ c ∈ srcC5, ChildWF c := by
    intro c hc
    simp only [srcC5, List.mem_cons, List.mem_singleton] at hc
    rcases hc with rfl | rfl | hc
    · exact ChildWF.elPath _
    · exact ChildWF.elText _
    · exact absurd hc (List.not_mem_nil _)
  have h1 : (parseLayer decNum (groupToJVal srcC5)).objects =
      parseLayerSrcObjects decNum srcC5 :=
    parseLayer_groupToJVal_eq decNum srcC5 hwf
  have h2 : parseLayerSrcObjects decNum srcC5 =
      [OfdObject.text (parseTextObject decNum (JVal.obj [])),
       OfdObject.path (parsePathObject decNum (JVal.obj []))] := by
    rw [parseLayerSrcObjects_eq]
    simp only [srcC5, List.map_cons, List.map_nil,
      show blockObjsOf decNum (SrcChild.el "ofd:PathObject" (JVal.obj [])) = []
        from by simp [blockObjsOf],
      show blockObjsOf decNum (SrcChild.el "ofd:TextObject" (JVal.obj [])) = []
        from by simp [blockObjsOf]]
    decide
  have h3 : specLayerObjects decNum srcC5 =
      [OfdObject.path (parsePathObject decNum (JVal.obj [])),
       OfdObject.text (parseTextObject decNum (JVal.obj []))] := by
    rw [show srcC5 = SrcChild.el "ofd:PathObject" (JVal.obj []) ::
        [SrcChild.el "ofd:TextObject" (JVal.obj [])] from rfl]
    simp only [specLayerObjects]
    rw [if_neg (by decide), if_pos (by decide), if_pos (by decide)]
    simp
  refine ⟨h1.trans h2, h3, ?_⟩
  rw [h1.trans h2, h3]
  decide

end OfdToPdf
